import Mathlib

/-!
# Verification of the cube3d software rasterizer

Shallow embedding of the numeric core of the `cube3d` repository
(`src/math.rs`, `src/graphics.rs`, `src/widget.rs`).  Rust `f64` values are
modelled as real numbers; the depth buffer, which the program initializes to
`f64::INFINITY`, is modelled with `WithTop ℝ` (`⊤` standing for `+∞`).
Byte buffers (`&mut [u8]`, `&mut [f64]`) are modelled as total functions
from indices; the program's own bound clamps keep all used indices in range.

Where the Rust code can produce IEEE special values, the embedding mirrors
the observable behaviour of the IEEE operations on the reachable inputs and
each such point is noted in a comment at the definition.
-/

namespace Cube3d

open Classical

/-- `src/math.rs` `edge_function`: signed-area edge function on screen points,
`(c.x-a.x)*(b.y-a.y) - (c.y-a.y)*(b.x-a.x)`. -/
def edge_function (a b c : ℝ × ℝ) : ℝ :=
  (c.1 - a.1) * (b.2 - a.2) - (c.2 - a.2) * (b.1 - a.1)

/-- `src/math.rs` `multiply_matrix_vector`: the inner loop
`result[i] += matrix[i][j] * vector[j]` accumulates the row-vector dot
product, i.e. `result i = ∑ j, matrix i j * vector j`. -/
def multiply_matrix_vector (matrix : Fin 3 → Fin 3 → ℝ) (vector : Fin 3 → ℝ) :
    Fin 3 → ℝ :=
  fun i => ∑ j, matrix i j * vector j

/-- `src/math.rs` `multiply_matrices`: the inner loop
`result[i][j] += a[i][k] * b[k][j]` accumulates
`result i j = ∑ k, a i k * b k j` (row-major matrix product). -/
def multiply_matrices (a b : Fin 3 → Fin 3 → ℝ) : Fin 3 → Fin 3 → ℝ :=
  fun i j => ∑ k, a i k * b k j

/-- `src/math.rs` `calculate_normal`: cross product of `b - a` and `c - a`,
divided by its Euclidean length.  (Rust `f64::sqrt` is modelled by
`Real.sqrt`; a zero-length cross product divides by zero, which the source
does not guard.) -/
noncomputable def calculate_normal (a b c : Fin 3 → ℝ) : Fin 3 → ℝ :=
  let u : Fin 3 → ℝ := fun i => b i - a i
  let v : Fin 3 → ℝ := fun i => c i - a i
  let n : Fin 3 → ℝ :=
    ![u 1 * v 2 - u 2 * v 1, u 2 * v 0 - u 0 * v 2, u 0 * v 1 - u 1 * v 0]
  let length := Real.sqrt (n 0 * n 0 + n 1 * n 1 + n 2 * n 2)
  fun i => n i / length

/-- `src/math.rs` `calculate_light_intensity`: normalize
`light_pos - position`, dot it with `normal`, and clamp below by the ambient
floor `0.1` (`dot_product.max(0.1)`).

IEEE note: when `light_pos = position` the Rust code computes `0.0 / 0.0 =
NaN` direction components, a `NaN` dot product, and `f64::max(NaN, 0.1) =
0.1`.  The embedding's division-by-zero convention (`x / 0 = 0`) yields a
zero direction, a zero dot product and `max 0 0.1 = 0.1` — the same result
on that input, and identical results whenever the length is nonzero. -/
noncomputable def calculate_light_intensity
    (normal position light_pos : Fin 3 → ℝ) : ℝ :=
  let light_dir : Fin 3 → ℝ := fun i => light_pos i - position i
  let length := Real.sqrt
    (light_dir 0 * light_dir 0 + light_dir 1 * light_dir 1 +
      light_dir 2 * light_dir 2)
  let light_dir' : Fin 3 → ℝ := fun i => light_dir i / length
  let dot_product :=
    normal 0 * light_dir' 0 + normal 1 * light_dir' 1 + normal 2 * light_dir' 2
  max dot_product 0.1

/-- Model of `druid::Color` as four 8-bit channels (stored as `ℕ`). -/
structure Color where
  r : ℕ
  g : ℕ
  b : ℕ
  a : ℕ
deriving DecidableEq

/-- `druid::Color::rgb8`: alpha is fully opaque (255). -/
def Color.rgb8 (r g b : ℕ) : Color := ⟨r, g, b, 255⟩

/-- Rust `as u8` cast from `f64`: saturate into `[0, 255]` and truncate.
The inputs produced by this program are nonnegative, where truncation toward
zero agrees with `Int.floor`. -/
noncomputable def f64_as_u8 (x : ℝ) : ℕ :=
  Int.toNat ⌊max 0 (min x 255)⌋

/-- `src/math.rs` `apply_lighting`: scale each colour channel by the
intensity, clamp with `.min(255.0)`, cast to `u8`, and rebuild with
`Color::rgb8` (so alpha is forced to 255). -/
noncomputable def apply_lighting (color : Color) (intensity : ℝ) : Color :=
  let r := f64_as_u8 (min ((color.r : ℝ) * intensity) 255)
  let g := f64_as_u8 (min ((color.g : ℝ) * intensity) 255)
  let b := f64_as_u8 (min ((color.b : ℝ) * intensity) 255)
  Color.rgb8 r g b

/-- Spec-worded definition (§4.2 of the specification): the normalization of
a 3-vector, `v / ‖v‖`, used to state the lighting formula the way the spec
writes it. -/
noncomputable def spec_normalize (v : Fin 3 → ℝ) : Fin 3 → ℝ :=
  fun i => v i / Real.sqrt (v 0 * v 0 + v 1 * v 1 + v 2 * v 2)

/-- Spec-worded definition: the 3-vector dot product. -/
def spec_dot (u v : Fin 3 → ℝ) : ℝ :=
  u 0 * v 0 + u 1 * v 1 + u 2 * v 2

/-- Spec-worded definition (§4.2): `intensity(normal, light_dir) =
max(dot(normal, normalize(light_pos - position)), 0.1)`. -/
noncomputable def spec_intensity (normal position light_pos : Fin 3 → ℝ) : ℝ :=
  max (spec_dot normal (spec_normalize (fun i => light_pos i - position i))) 0.1

/-- `src/vertex.rs` `Vertex`: world position, screen position, normal. -/
structure Vertex where
  position : Fin 3 → ℝ
  screen_position : ℝ × ℝ
  normal : Fin 3 → ℝ

/-- The mutable buffers `draw_triangle` and `draw_line` write into: the RGBA
byte buffer `pixel_data : &mut [u8]` and the depth buffer
`z_buffer : &mut [f64]` (whose `f64::INFINITY` entries are modelled by `⊤`).
Indices used by the program are kept in range by its own clamps. -/
@[ext] structure Buffers where
  pix : ℕ → ℕ
  zbuf : ℕ → WithTop ℝ

/-- Freshly cleared buffers, as allocated at the start of
`CubeWidget::paint`: `vec![0u8; ...]` and `vec![f64::INFINITY; ...]`. -/
def cleared : Buffers := ⟨fun _ => 0, fun _ => ⊤⟩

/-- `w0` of the rasterizer's pixel loop:
`edge_function(&v1.screen_position, &v2.screen_position, &p)`. -/
def w0val (v0 v1 v2 : Vertex) (p : ℝ × ℝ) : ℝ :=
  edge_function v1.screen_position v2.screen_position p

/-- `w1` of the rasterizer's pixel loop:
`edge_function(&v2.screen_position, &v0.screen_position, &p)`. -/
def w1val (v0 v1 v2 : Vertex) (p : ℝ × ℝ) : ℝ :=
  edge_function v2.screen_position v0.screen_position p

/-- `w2` of the rasterizer's pixel loop:
`edge_function(&v0.screen_position, &v1.screen_position, &p)`. -/
def w2val (v0 v1 v2 : Vertex) (p : ℝ × ℝ) : ℝ :=
  edge_function v0.screen_position v1.screen_position p

/-- The rasterizer's point-inclusion test, exactly as the source writes it:
`w0 >= 0.0 && w1 >= 0.0 && w2 >= 0.0` (graphics.rs line 57). -/
def insideTest (v0 v1 v2 : Vertex) (p : ℝ × ℝ) : Prop :=
  0 ≤ w0val v0 v1 v2 p ∧ 0 ≤ w1val v0 v1 v2 p ∧ 0 ≤ w2val v0 v1 v2 p

/-- Spec-worded point-inclusion rule (§4.4 step 3 / claim C1): the pixel is
inside iff all three edge values share the sign of the triangle's signed
area, inclusive of zero, for either winding. -/
def spec_inside (v0 v1 v2 : Vertex) (p : ℝ × ℝ) : Prop :=
  (0 < edge_function v0.screen_position v1.screen_position v2.screen_position ∧
    0 ≤ w0val v0 v1 v2 p ∧ 0 ≤ w1val v0 v1 v2 p ∧ 0 ≤ w2val v0 v1 v2 p) ∨
  (edge_function v0.screen_position v1.screen_position v2.screen_position < 0 ∧
    w0val v0 v1 v2 p ≤ 0 ∧ w1val v0 v1 v2 p ≤ 0 ∧ w2val v0 v1 v2 p ≤ 0)

/-- Normalized barycentric weight `w0 / area` (graphics.rs line 60). -/
noncomputable def bary0 (v0 v1 v2 : Vertex) (area : ℝ) (p : ℝ × ℝ) : ℝ :=
  w0val v0 v1 v2 p / area

/-- Normalized barycentric weight `w1 / area` (graphics.rs line 61). -/
noncomputable def bary1 (v0 v1 v2 : Vertex) (area : ℝ) (p : ℝ × ℝ) : ℝ :=
  w1val v0 v1 v2 p / area

/-- Normalized barycentric weight `w2 / area` (graphics.rs line 62). -/
noncomputable def bary2 (v0 v1 v2 : Vertex) (area : ℝ) (p : ℝ × ℝ) : ℝ :=
  w2val v0 v1 v2 p / area

/-- Barycentric interpolation of one scalar vertex attribute, the
`v0.f * w0 + v1.f * w1 + v2.f * w2` pattern of graphics.rs lines 65-77. -/
noncomputable def interp (v0 v1 v2 : Vertex) (area : ℝ) (p : ℝ × ℝ)
    (f : Vertex → ℝ) : ℝ :=
  f v0 * bary0 v0 v1 v2 area p + f v1 * bary1 v0 v1 v2 area p +
    f v2 * bary2 v0 v1 v2 area p

/-- The interpolated world-space depth `pz3d` (graphics.rs line 67). -/
noncomputable def interpolated_z (v0 v1 v2 : Vertex) (area : ℝ)
    (p : ℝ × ℝ) : ℝ :=
  interp v0 v1 v2 area p (fun v => v.position 2)

/-- The colour the rasterizer writes for a shaded pixel (graphics.rs lines
64-93): interpolate the world position and the normal, re-normalize the
normal, compute the light intensity and apply it to the base colour. -/
noncomputable def pixel_shade (v0 v1 v2 : Vertex) (area : ℝ)
    (light_pos_world : Fin 3 → ℝ) (base_color : Color) (p : ℝ × ℝ) : Color :=
  let px3d := interp v0 v1 v2 area p (fun v => v.position 0)
  let py3d := interp v0 v1 v2 area p (fun v => v.position 1)
  let pz3d := interp v0 v1 v2 area p (fun v => v.position 2)
  let nx := interp v0 v1 v2 area p (fun v => v.normal 0)
  let ny := interp v0 v1 v2 area p (fun v => v.normal 1)
  let nz := interp v0 v1 v2 area p (fun v => v.normal 2)
  let length := Real.sqrt (nx * nx + ny * ny + nz * nz)
  let interpolated_normal : Fin 3 → ℝ := ![nx / length, ny / length, nz / length]
  let light_intensity :=
    calculate_light_intensity interpolated_normal ![px3d, py3d, pz3d]
      light_pos_world
  apply_lighting base_color light_intensity

/-- The four byte stores `pixel_data[pixel_offset + k] = channel`
(graphics.rs lines 94-97). -/
def write_rgba (pix : ℕ → ℕ) (pixel_offset : ℕ) (c : Color) : ℕ → ℕ :=
  fun i =>
    if i = pixel_offset then c.r
    else if i = pixel_offset + 1 then c.g
    else if i = pixel_offset + 2 then c.b
    else if i = pixel_offset + 3 then c.a
    else pix i

/-- Body of the rasterizer's per-pixel loop (graphics.rs lines 49-98) at
pixel `(x, y)`, with the pixel center `(x + 0.5, y + 0.5)`.

IEEE note on the `area = 0` branch: the source has no explicit guard.  When
`area = 0` and the inclusion test passed, all three edge values are `0`
(their sum always equals `area`, see `edge_sum`), the divisions are
`0.0 / 0.0 = NaN`, the interpolated depth `pz3d` is `NaN`, and the IEEE
comparison `NaN < z` is false — the pixel is skipped.  The embedding encodes
exactly that skip. -/
noncomputable def rasterize_pixel (v0 v1 v2 : Vertex) (width : ℕ) (area : ℝ)
    (light_pos_world : Fin 3 → ℝ) (base_color : Color) (x y : ℕ)
    (s : Buffers) : Buffers :=
  let p : ℝ × ℝ := ((x : ℝ) + 0.5, (y : ℝ) + 0.5)
  if insideTest v0 v1 v2 p then
    if area = 0 then s
    else
      let pz3d := interpolated_z v0 v1 v2 area p
      let offset := y * width + x
      if (pz3d : WithTop ℝ) < s.zbuf offset then
        { pix := write_rgba s.pix (offset * 4)
            (pixel_shade v0 v1 v2 area light_pos_world base_color p),
          zbuf := fun i => if i = offset then (pz3d : WithTop ℝ) else s.zbuf i }
      else s
  else s

/-- `min_x` of the clamped bounding box (graphics.rs lines 18-23):
`min3.floor().max(0.0) as usize`. -/
noncomputable def tri_min_x (v0 v1 v2 : Vertex) : ℕ :=
  Int.toNat (max ⌊min (min v0.screen_position.1 v1.screen_position.1)
    v2.screen_position.1⌋ 0)

/-- `max_x` of the clamped bounding box (graphics.rs lines 24-29):
`max3.ceil().min(width as f64 - 1.0) as usize` (the `as usize` cast
saturates negatives to 0). -/
noncomputable def tri_max_x (v0 v1 v2 : Vertex) (width : ℕ) : ℕ :=
  Int.toNat (min ⌈max (max v0.screen_position.1 v1.screen_position.1)
    v2.screen_position.1⌉ ((width : ℤ) - 1))

/-- `min_y` of the clamped bounding box (graphics.rs lines 30-35). -/
noncomputable def tri_min_y (v0 v1 v2 : Vertex) : ℕ :=
  Int.toNat (max ⌊min (min v0.screen_position.2 v1.screen_position.2)
    v2.screen_position.2⌋ 0)

/-- `max_y` of the clamped bounding box (graphics.rs lines 36-41). -/
noncomputable def tri_max_y (v0 v1 v2 : Vertex) (height : ℕ) : ℕ :=
  Int.toNat (min ⌈max (max v0.screen_position.2 v1.screen_position.2)
    v2.screen_position.2⌉ ((height : ℤ) - 1))

/-- `src/graphics.rs` `draw_triangle`: compute the clamped bounding box and
the triangle's signed area, then run the per-pixel loop
`for y in min_y..=max_y { for x in min_x..=max_x { ... } }`. -/
noncomputable def draw_triangle (v0 v1 v2 : Vertex) (width height : ℕ)
    (light_pos_world : Fin 3 → ℝ) (base_color : Color) (s : Buffers) :
    Buffers :=
  let min_x := tri_min_x v0 v1 v2
  let max_x := tri_max_x v0 v1 v2 width
  let min_y := tri_min_y v0 v1 v2
  let max_y := tri_max_y v0 v1 v2 height
  let area := edge_function v0.screen_position v1.screen_position
    v2.screen_position
  (List.range' min_y (max_y + 1 - min_y)).foldl
    (fun s y =>
      (List.range' min_x (max_x + 1 - min_x)).foldl
        (fun s x =>
          rasterize_pixel v0 v1 v2 width area light_pos_world base_color x y s)
        s)
    s

/-- The arguments of one `draw_triangle` call issued by
`CubeWidget::paint`'s face loop. -/
structure DrawCall where
  v0 : Vertex
  v1 : Vertex
  v2 : Vertex
  light : Fin 3 → ℝ
  color : Color

/-- A sequence of `draw_triangle` calls into the same buffers, as
`CubeWidget::paint` issues for the cube's faces within one frame. -/
noncomputable def draw_calls (width height : ℕ) (ds : List DrawCall)
    (s : Buffers) : Buffers :=
  ds.foldl (fun s d =>
    draw_triangle d.v0 d.v1 d.v2 width height d.light d.color s) s

/-- Rust `f64::round`: round half away from zero (used by `draw_line` on
its endpoint coordinates before `as isize`). -/
noncomputable def rust_round (x : ℝ) : ℤ :=
  if 0 ≤ x then ⌊x + 1 / 2⌋ else ⌈x - 1 / 2⌉

/-- The loop of `src/graphics.rs` `draw_line` (lines 127-149), with an
explicit fuel so the recursion is structural: plot the current point when it
is inside the `width × height` bounds, stop when the endpoint `(x1, y1)` is
reached (returning the final point and buffer), otherwise take the Bresenham
`e2`-guarded steps.  `draw_line` supplies a fuel that is proved sufficient
(`draw_line_spec`), so the `none` (fuel exhausted) case is unreachable. -/
def bres_loop (x1 y1 dx dy sx sy : ℤ) (width height : ℕ) (color : Color) :
    ℕ → ℤ → ℤ → ℤ → (ℕ → ℕ) → Option (ℤ × ℤ × (ℕ → ℕ))
  | 0, _, _, _, _ => none
  | fuel + 1, x0, y0, err, pix =>
    let pix' := if 0 ≤ x0 ∧ x0 < (width : ℤ) ∧ 0 ≤ y0 ∧ y0 < (height : ℤ) then
        write_rgba pix ((y0.toNat * width + x0.toNat) * 4) color
      else pix
    if x0 = x1 ∧ y0 = y1 then some (x0, y0, pix')
    else
      let e2 := 2 * err
      let err' := if dy ≤ e2 then err + dy else err
      let x0' := if dy ≤ e2 then x0 + sx else x0
      let err'' := if e2 ≤ dx then err' + dx else err'
      let y0' := if e2 ≤ dx then y0 + sy else y0
      bres_loop x1 y1 dx dy sx sy width height color fuel x0' y0' err'' pix'

/-- The `bres_loop` run `draw_line` performs: round the endpoints, set
`dx = |x1 - x0|`, `dy = -|y1 - y0|`, the step signs and `err = dx + dy`
(graphics.rs lines 115-125), and iterate. -/
noncomputable def draw_line_run (x0f y0f x1f y1f : ℝ) (pix : ℕ → ℕ)
    (width height : ℕ) (color : Color) : Option (ℤ × ℤ × (ℕ → ℕ)) :=
  let x0 := rust_round x0f
  let y0 := rust_round y0f
  let x1 := rust_round x1f
  let y1 := rust_round y1f
  let dx := |x1 - x0|
  let dy := -|y1 - y0|
  let sx : ℤ := if x0 < x1 then 1 else -1
  let sy : ℤ := if y0 < y1 then 1 else -1
  bres_loop x1 y1 dx dy sx sy width height color ((dx - dy).toNat + 1) x0 y0
    (dx + dy) pix

/-- `src/graphics.rs` `draw_line`: the buffer produced by the Bresenham run
(the fuel never runs out, see `draw_line_spec`, so the fallback arm is
unreachable). -/
noncomputable def draw_line (x0f y0f x1f y1f : ℝ) (pix : ℕ → ℕ)
    (width height : ℕ) (color : Color) : ℕ → ℕ :=
  match draw_line_run x0f y0f x1f y1f pix width height color with
  | some r => r.2.2
  | none => pix

/-- `src/state.rs` `AppState` (the fields read by the render path). -/
structure AppState where
  angle_x : ℝ
  angle_y : ℝ
  translation : ℝ × ℝ
  debug : Bool
  paused : Bool
  wireframe : Bool
  zoom : ℝ
  light_position : Fin 3 → ℝ

/-- The eight object-space cube corners (widget.rs lines 49-58). -/
def cube_vertices : ℕ → Fin 3 → ℝ
  | 0 => ![-1, -1, -1]
  | 1 => ![1, -1, -1]
  | 2 => ![1, 1, -1]
  | 3 => ![-1, 1, -1]
  | 4 => ![-1, -1, 1]
  | 5 => ![1, -1, 1]
  | 6 => ![1, 1, 1]
  | 7 => ![-1, 1, 1]
  | _ => ![0, 0, 0]

/-- The six quad faces (vertex index quadruples), listed identically in
`compute_projected_vertices` and `paint` (widget.rs lines 87-94 and
351-358). -/
def cube_faces : List (ℕ × ℕ × ℕ × ℕ) :=
  [(0, 1, 2, 3), (5, 4, 7, 6), (4, 0, 3, 7), (1, 5, 6, 2), (4, 5, 1, 0),
    (3, 2, 6, 7)]

/-- The twelve wireframe edges (widget.rs lines 361-374). -/
def cube_edges : List (ℕ × ℕ) :=
  [(0, 1), (1, 2), (2, 3), (3, 0), (4, 5), (5, 6), (6, 7), (7, 4), (0, 4),
    (1, 5), (2, 6), (3, 7)]

/-- The per-face base colours (widget.rs lines 377-384). -/
def face_colors : ℕ → Color
  | 0 => Color.rgb8 255 0 0
  | 1 => Color.rgb8 0 255 0
  | 2 => Color.rgb8 0 0 255
  | 3 => Color.rgb8 255 255 0
  | 4 => Color.rgb8 255 0 255
  | _ => Color.rgb8 0 255 255

/-- `druid::Color::WHITE`, used for wireframe edges. -/
def colorWhite : Color := ⟨255, 255, 255, 255⟩

/-- The rotation-around-X matrix built from `angle_x.sin_cos()`
(widget.rs line 64). -/
noncomputable def rotation_x_matrix (angle : ℝ) : Fin 3 → Fin 3 → ℝ :=
  ![![1, 0, 0], ![0, Real.cos angle, -Real.sin angle],
    ![0, Real.sin angle, Real.cos angle]]

/-- The rotation-around-Y matrix built from `angle_y.sin_cos()`
(widget.rs line 66). -/
noncomputable def rotation_y_matrix (angle : ℝ) : Fin 3 → Fin 3 → ℝ :=
  ![![Real.cos angle, 0, Real.sin angle], ![0, 1, 0],
    ![-Real.sin angle, 0, Real.cos angle]]

/-- `CubeWidget::compute_projected_vertices` (widget.rs lines 44-132):
combine the two rotations, rotate and translate the cube corners
(translation is divided by the scale in 3D), accumulate face normals into
per-vertex normals over the face list, normalize them, and attach screen
positions `position.xy * scale + center`. -/
noncomputable def compute_projected_vertices (w h : ℕ) (data : AppState) :
    ℕ → Vertex :=
  let center : ℝ × ℝ := ((w : ℝ) / 2, (h : ℝ) / 2)
  let scale : ℝ := min (h : ℝ) (w : ℝ) / 4 * data.zoom
  let rotation_matrix :=
    multiply_matrices (rotation_y_matrix data.angle_y)
      (rotation_x_matrix data.angle_x)
  let transformed : ℕ → Fin 3 → ℝ := fun n =>
    let rotated := multiply_matrix_vector rotation_matrix (cube_vertices n)
    ![rotated 0 + data.translation.1 / scale,
      rotated 1 + data.translation.2 / scale, rotated 2]
  let accumulated : ℕ → Fin 3 → ℝ :=
    cube_faces.foldl (fun acc f =>
      let normal := calculate_normal (transformed f.1) (transformed f.2.1)
        (transformed f.2.2.1)
      [f.1, f.2.1, f.2.2.1, f.2.2.2].foldl (fun acc index =>
        Function.update acc index (fun i => acc index i + normal i)) acc)
      (fun _ => ![0, 0, 0])
  let vertex_normals : ℕ → Fin 3 → ℝ := fun n =>
    let nv := accumulated n
    let length := Real.sqrt (nv 0 * nv 0 + nv 1 * nv 1 + nv 2 * nv 2)
    fun i => nv i / length
  fun n =>
    { position := transformed n,
      screen_position := (transformed n 0 * scale + center.1,
        transformed n 1 * scale + center.2),
      normal := vertex_normals n }

/-- The buffer-producing portion of `CubeWidget::paint` (widget.rs lines
343-433): allocate a cleared pixel buffer and a depth buffer of
`f64::INFINITY`, project the vertices, then either draw the twelve wireframe
edges with `draw_line` (white), or, for each face in order, the two
triangles `(a,b,c)` and `(a,c,d)` with `draw_triangle` and the face's
colour.  (The FPS bookkeeping, the image blit and the text overlays do not
touch these buffers.)  There is no minimum-viewport check anywhere on this
path. -/
noncomputable def paint_buffers (w h : ℕ) (data : AppState) : Buffers :=
  let verts := compute_projected_vertices w h data
  if data.wireframe then
    { pix := cube_edges.foldl (fun pix e =>
        draw_line (verts e.1).screen_position.1 (verts e.1).screen_position.2
          (verts e.2).screen_position.1 (verts e.2).screen_position.2 pix w h
          colorWhite) cleared.pix,
      zbuf := cleared.zbuf }
  else
    cube_faces.enum.foldl (fun s fi =>
      draw_triangle (verts fi.2.1) (verts fi.2.2.2.1) (verts fi.2.2.2.2) w h
        data.light_position (face_colors fi.1)
        (draw_triangle (verts fi.2.1) (verts fi.2.2.1) (verts fi.2.2.2.1) w h
          data.light_position (face_colors fi.1) s)) cleared

/-- Concrete test input: the application state used in the 5×5-viewport
scenario — no rotation, no translation, filled (non-wireframe) mode, zoom
`1/10`, light at `(2, 2, -5)`. -/
noncomputable def exState : AppState :=
  ⟨0, 0, ((0 : ℝ), (0 : ℝ)), false, false, false, 1 / 10, ![2, 2, -5]⟩

/-- Concrete test input: vertex at screen `(0,0)` of a clockwise-wound
(negative-area) triangle used in counterexamples and witnesses. -/
def exNegV0 : Vertex := ⟨![0, 0, 0], ((0 : ℝ), (0 : ℝ)), ![0, 0, 1]⟩

/-- Concrete test input: vertex at screen `(2,0)` of the negative-area
triangle. -/
def exNegV1 : Vertex := ⟨![1, 0, 0], ((2 : ℝ), (0 : ℝ)), ![0, 0, 1]⟩

/-- Concrete test input: vertex at screen `(0,2)` of the negative-area
triangle. -/
def exNegV2 : Vertex := ⟨![0, 1, 0], ((0 : ℝ), (2 : ℝ)), ![0, 0, 1]⟩

/-- Concrete test input: vertex at screen `(0,0)`, depth `2`, of a
counterclockwise-wound (positive-area) triangle. -/
def exPosV0 : Vertex := ⟨![0, 0, 2], ((0 : ℝ), (0 : ℝ)), ![0, 0, 1]⟩

/-- Concrete test input: vertex at screen `(0,4)`, depth `2`, of the
positive-area triangle. -/
def exPosV1 : Vertex := ⟨![0, 1, 2], ((0 : ℝ), (4 : ℝ)), ![0, 0, 1]⟩

/-- Concrete test input: vertex at screen `(4,0)`, depth `2`, of the
positive-area triangle. -/
def exPosV2 : Vertex := ⟨![1, 0, 2], ((4 : ℝ), (0 : ℝ)), ![0, 0, 1]⟩

/-- Concrete test input: first vertex of a degenerate triangle whose three
screen positions `(0,0)`, `(1,1)`, `(2,2)` are collinear (zero area). -/
def exDegV0 : Vertex := ⟨![0, 0, 0], ((0 : ℝ), (0 : ℝ)), ![0, 0, 1]⟩

/-- Concrete test input: second vertex of the degenerate triangle. -/
def exDegV1 : Vertex := ⟨![0, 0, 1], ((1 : ℝ), (1 : ℝ)), ![0, 0, 1]⟩

/-- Concrete test input: third vertex of the degenerate triangle. -/
def exDegV2 : Vertex := ⟨![0, 0, 2], ((2 : ℝ), (2 : ℝ)), ![0, 0, 1]⟩

/-- Concrete test input: a light position. -/
def exLight : Fin 3 → ℝ := ![2, 2, -5]

/-- Concrete test input: the red base colour `Color::rgb8(255, 0, 0)`. -/
def exRed : Color := Color.rgb8 255 0 0

end Cube3d

namespace Cube3d

/-- The three per-pixel edge values always sum to the triangle's signed
area: `w0 + w1 + w2 = edge_function v0 v1 v2` (an algebraic identity of the
edge function). -/
lemma edge_sum (v0 v1 v2 : Vertex) (p : ℝ × ℝ) :
    w0val v0 v1 v2 p + w1val v0 v1 v2 p + w2val v0 v1 v2 p =
      edge_function v0.screen_position v1.screen_position v2.screen_position := by
  simp only [w0val, w1val, w2val, edge_function]
  ring

/-- A triangle with negative signed area has no pixel at all that passes the
rasterizer's `w0 >= 0 && w1 >= 0 && w2 >= 0` test: the three values sum to
the (negative) area. -/
lemma not_insideTest_of_area_neg (v0 v1 v2 : Vertex) (p : ℝ × ℝ)
    (h : edge_function v0.screen_position v1.screen_position
        v2.screen_position < 0) :
    ¬ insideTest v0 v1 v2 p := by
  rintro ⟨h0, h1, h2⟩
  have hs := edge_sum v0 v1 v2 p
  linarith

/-- A pixel whose center fails the inclusion test is skipped. -/
lemma rasterize_pixel_not_inside (v0 v1 v2 : Vertex) (w : ℕ) (area : ℝ)
    (l : Fin 3 → ℝ) (c : Color) (x y : ℕ) (s : Buffers)
    (h : ¬ insideTest v0 v1 v2 ((x : ℝ) + 0.5, (y : ℝ) + 0.5)) :
    rasterize_pixel v0 v1 v2 w area l c x y s = s := by
  simp only [rasterize_pixel]
  rw [if_neg h]

/-- With zero area the pixel step never writes (the IEEE path produces `NaN`
weights whose depth comparison fails). -/
lemma rasterize_pixel_area_zero (v0 v1 v2 : Vertex) (w : ℕ)
    (l : Fin 3 → ℝ) (c : Color) (x y : ℕ) (s : Buffers) :
    rasterize_pixel v0 v1 v2 w 0 l c x y s = s := by
  simp [rasterize_pixel]

/-- When the depth test fails, the pixel step leaves the buffers alone. -/
lemma rasterize_pixel_skip (v0 v1 v2 : Vertex) (w : ℕ) (area : ℝ)
    (l : Fin 3 → ℝ) (c : Color) (x y : ℕ) (s : Buffers)
    (ha : area ≠ 0)
    (hz : ¬ ((interpolated_z v0 v1 v2 area ((x : ℝ) + 0.5, (y : ℝ) + 0.5) :
        ℝ) : WithTop ℝ) < s.zbuf (y * w + x)) :
    rasterize_pixel v0 v1 v2 w area l c x y s = s := by
  simp only [rasterize_pixel]
  split_ifs <;> rfl

/-- When the pixel is inside, the area is nonzero and the depth test passes,
the pixel step performs exactly the depth write and the RGBA write. -/
lemma rasterize_pixel_write (v0 v1 v2 : Vertex) (w : ℕ) (area : ℝ)
    (l : Fin 3 → ℝ) (c : Color) (x y : ℕ) (s : Buffers)
    (hin : insideTest v0 v1 v2 ((x : ℝ) + 0.5, (y : ℝ) + 0.5))
    (ha : area ≠ 0)
    (hz : ((interpolated_z v0 v1 v2 area ((x : ℝ) + 0.5, (y : ℝ) + 0.5) :
        ℝ) : WithTop ℝ) < s.zbuf (y * w + x)) :
    rasterize_pixel v0 v1 v2 w area l c x y s =
      { pix := write_rgba s.pix ((y * w + x) * 4)
          (pixel_shade v0 v1 v2 area l c ((x : ℝ) + 0.5, (y : ℝ) + 0.5)),
        zbuf := fun i => if i = y * w + x then
          ((interpolated_z v0 v1 v2 area ((x : ℝ) + 0.5, (y : ℝ) + 0.5) : ℝ) :
            WithTop ℝ) else s.zbuf i } := by
  simp only [rasterize_pixel]
  split_ifs
  rfl

/-- A single pixel step never increases any depth-buffer entry. -/
lemma rasterize_pixel_zbuf_le (v0 v1 v2 : Vertex) (w : ℕ) (area : ℝ)
    (l : Fin 3 → ℝ) (c : Color) (x y : ℕ) (s : Buffers) (i : ℕ) :
    (rasterize_pixel v0 v1 v2 w area l c x y s).zbuf i ≤ s.zbuf i := by
  simp only [rasterize_pixel]
  split
  · split
    · exact le_refl _
    · split
      · rename_i hz
        dsimp only
        split
        · rename_i hi
          subst hi
          exact le_of_lt hz
        · exact le_refl _
      · exact le_refl _
  · exact le_refl _

/-- Folding any step that never increases depth entries never increases
depth entries. -/
lemma foldl_zbuf_le {α : Type} (f : Buffers → α → Buffers)
    (hf : ∀ s a i, (f s a).zbuf i ≤ s.zbuf i) :
    ∀ (lst : List α) (s : Buffers) (i : ℕ),
      (List.foldl f s lst).zbuf i ≤ s.zbuf i := by
  intro lst
  induction lst with
  | nil => intro s i; exact le_refl _
  | cons a t ih =>
      intro s i
      calc (List.foldl f (f s a) t).zbuf i ≤ (f s a).zbuf i := ih (f s a) i
        _ ≤ s.zbuf i := hf s a i

/-- `draw_triangle` never increases any depth-buffer entry. -/
lemma draw_triangle_zbuf_le (v0 v1 v2 : Vertex) (w h : ℕ)
    (l : Fin 3 → ℝ) (c : Color) (s : Buffers) (i : ℕ) :
    (draw_triangle v0 v1 v2 w h l c s).zbuf i ≤ s.zbuf i := by
  simp only [draw_triangle]
  exact foldl_zbuf_le _
    (fun s y i => foldl_zbuf_le _
      (fun s x i => rasterize_pixel_zbuf_le v0 v1 v2 w _ l c x y s i) _ s i)
    _ s i

/-- Flattening the rasterizer's nested `y`/`x` loops into one fold over the
list of `(x, y)` pixel coordinates. -/
lemma foldl_foldl_eq_foldl_pairs {α β γ : Type} (ys : List α) (xs : List β)
    (g : β → α → γ → γ) (s : γ) :
    ys.foldl (fun s y => xs.foldl (fun s x => g x y s) s) s =
      (ys.flatMap (fun y => xs.map (fun x => (x, y)))).foldl
        (fun s q => g q.1 q.2 s) s := by
  induction ys generalizing s with
  | nil => rfl
  | cons y ys ih =>
      simp only [List.flatMap_cons, List.foldl_append, List.foldl_map,
        List.foldl_cons]
      exact ih _

/-- `draw_triangle` as a single fold over its pixel list. -/
lemma draw_triangle_eq_foldl_pairs (v0 v1 v2 : Vertex) (w h : ℕ)
    (l : Fin 3 → ℝ) (c : Color) (s : Buffers) :
    draw_triangle v0 v1 v2 w h l c s =
      ((List.range' (tri_min_y v0 v1 v2)
          (tri_max_y v0 v1 v2 h + 1 - tri_min_y v0 v1 v2)).flatMap
        (fun y => (List.range' (tri_min_x v0 v1 v2)
          (tri_max_x v0 v1 v2 w + 1 - tri_min_x v0 v1 v2)).map
            (fun x => (x, y)))).foldl
        (fun s q => rasterize_pixel v0 v1 v2 w
          (edge_function v0.screen_position v1.screen_position
            v2.screen_position) l c q.1 q.2 s) s := by
  simp only [draw_triangle]
  exact foldl_foldl_eq_foldl_pairs _ _ _ s

/-- A fold whose every step fixes the state is the identity. -/
lemma foldl_id_of_steps_id {α γ : Type} (f : γ → α → γ) (lst : List α)
    (s : γ) (h : ∀ a ∈ lst, f s a = s) : lst.foldl f s = s := by
  induction lst with
  | nil => rfl
  | cons a t ih =>
      rw [List.foldl_cons, h a (List.mem_cons_self a t)]
      exact ih (fun b hb => h b (List.mem_cons_of_mem a hb))

/-- A negative-area triangle draws nothing: no pixel can pass the
`w0 >= 0 && w1 >= 0 && w2 >= 0` test because the three values sum to the
negative area. -/
lemma draw_triangle_eq_of_neg_area (v0 v1 v2 : Vertex) (w h : ℕ)
    (l : Fin 3 → ℝ) (c : Color) (s : Buffers)
    (hneg : edge_function v0.screen_position v1.screen_position
        v2.screen_position < 0) :
    draw_triangle v0 v1 v2 w h l c s = s := by
  rw [draw_triangle_eq_foldl_pairs]
  exact foldl_id_of_steps_id _ _ s (fun q _ =>
    rasterize_pixel_not_inside v0 v1 v2 w _ l c q.1 q.2 s
      (not_insideTest_of_area_neg v0 v1 v2 _ hneg))

/-- A zero-area triangle draws nothing. -/
lemma draw_triangle_eq_of_zero_area (v0 v1 v2 : Vertex) (w h : ℕ)
    (l : Fin 3 → ℝ) (c : Color) (s : Buffers)
    (hzero : edge_function v0.screen_position v1.screen_position
        v2.screen_position = 0) :
    draw_triangle v0 v1 v2 w h l c s = s := by
  rw [draw_triangle_eq_foldl_pairs]
  refine foldl_id_of_steps_id _ _ s (fun q _ => ?_)
  rw [hzero]
  exact rasterize_pixel_area_zero v0 v1 v2 w l c q.1 q.2 s

/-- After a pixel step, the depth entry at the pixel's own offset is at most
the pixel's interpolated depth (inside pixel, nonzero area): either the step
just wrote that depth, or the stored value was already no larger. -/
lemma rasterize_pixel_zbuf_self_le (v0 v1 v2 : Vertex) (w : ℕ) (area : ℝ)
    (l : Fin 3 → ℝ) (c : Color) (x y : ℕ) (s : Buffers)
    (hin : insideTest v0 v1 v2 ((x : ℝ) + 0.5, (y : ℝ) + 0.5))
    (ha : area ≠ 0) :
    (rasterize_pixel v0 v1 v2 w area l c x y s).zbuf (y * w + x) ≤
      ((interpolated_z v0 v1 v2 area ((x : ℝ) + 0.5, (y : ℝ) + 0.5) : ℝ) :
        WithTop ℝ) := by
  by_cases hz : ((interpolated_z v0 v1 v2 area ((x : ℝ) + 0.5,
      (y : ℝ) + 0.5) : ℝ) : WithTop ℝ) < s.zbuf (y * w + x)
  · rw [rasterize_pixel_write v0 v1 v2 w area l c x y s hin ha hz]
    simp
  · rw [rasterize_pixel_skip v0 v1 v2 w area l c x y s ha hz]
    exact not_lt.mp hz

/-- After folding the pixel steps over a list of pixels, every pixel of the
list that is inside the triangle has its depth entry at most its own
interpolated depth. -/
lemma foldl_raster_self_le (v0 v1 v2 : Vertex) (w : ℕ) (area : ℝ)
    (l : Fin 3 → ℝ) (c : Color) (L : List (ℕ × ℕ)) :
    ∀ (s : Buffers) (q : ℕ × ℕ), q ∈ L →
      insideTest v0 v1 v2 ((q.1 : ℝ) + 0.5, (q.2 : ℝ) + 0.5) → area ≠ 0 →
      (L.foldl (fun s q =>
          rasterize_pixel v0 v1 v2 w area l c q.1 q.2 s) s).zbuf
          (q.2 * w + q.1) ≤
        ((interpolated_z v0 v1 v2 area ((q.1 : ℝ) + 0.5, (q.2 : ℝ) + 0.5) :
          ℝ) : WithTop ℝ) := by
  induction L with
  | nil => intro s q hq; cases hq
  | cons a t ih =>
      intro s q hq hin ha
      rw [List.foldl_cons]
      rcases List.mem_cons.mp hq with h | h
      · subst h
        calc (t.foldl (fun s q => rasterize_pixel v0 v1 v2 w area l c q.1 q.2 s)
                (rasterize_pixel v0 v1 v2 w area l c q.1 q.2 s)).zbuf
                (q.2 * w + q.1)
            ≤ (rasterize_pixel v0 v1 v2 w area l c q.1 q.2 s).zbuf
                (q.2 * w + q.1) :=
              foldl_zbuf_le _ (fun s q i =>
                rasterize_pixel_zbuf_le v0 v1 v2 w area l c q.1 q.2 s i) t _ _
          _ ≤ _ := rasterize_pixel_zbuf_self_le v0 v1 v2 w area l c q.1 q.2 s
              hin ha
      · exact ih _ q h hin ha

/-- Re-drawing the same triangle is a no-op: every pixel either fails the
inclusion test again, or fails the depth test because the first pass already
stored a depth no larger than the pixel's interpolated depth. -/
lemma draw_triangle_twice (v0 v1 v2 : Vertex) (w h : ℕ) (l : Fin 3 → ℝ)
    (c : Color) (s : Buffers) :
    draw_triangle v0 v1 v2 w h l c (draw_triangle v0 v1 v2 w h l c s) =
      draw_triangle v0 v1 v2 w h l c s := by
  rw [draw_triangle_eq_foldl_pairs v0 v1 v2 w h l c s,
    draw_triangle_eq_foldl_pairs v0 v1 v2 w h l c
      (((List.range' (tri_min_y v0 v1 v2)
          (tri_max_y v0 v1 v2 h + 1 - tri_min_y v0 v1 v2)).flatMap
        (fun y => (List.range' (tri_min_x v0 v1 v2)
          (tri_max_x v0 v1 v2 w + 1 - tri_min_x v0 v1 v2)).map
            (fun x => (x, y)))).foldl
        (fun s q => rasterize_pixel v0 v1 v2 w
          (edge_function v0.screen_position v1.screen_position
            v2.screen_position) l c q.1 q.2 s) s)]
  refine foldl_id_of_steps_id _ _ _ (fun q hq => ?_)
  by_cases hin : insideTest v0 v1 v2 ((q.1 : ℝ) + 0.5, (q.2 : ℝ) + 0.5)
  · by_cases ha : edge_function v0.screen_position v1.screen_position
        v2.screen_position = 0
    · rw [ha]
      exact rasterize_pixel_area_zero v0 v1 v2 w l c q.1 q.2 _
    · refine rasterize_pixel_skip v0 v1 v2 w _ l c q.1 q.2 _ ha (not_lt.mpr ?_)
      exact foldl_raster_self_le v0 v1 v2 w _ l c _ s q hq hin ha
  · exact rasterize_pixel_not_inside v0 v1 v2 w _ l c q.1 q.2 _ hin

/-- A sequence of `draw_triangle` calls never increases any depth entry. -/
lemma draw_calls_zbuf_le (w h : ℕ) (ds : List DrawCall) (s : Buffers)
    (i : ℕ) : (draw_calls w h ds s).zbuf i ≤ s.zbuf i := by
  simp only [draw_calls]
  exact foldl_zbuf_le _
    (fun s d i => draw_triangle_zbuf_le d.v0 d.v1 d.v2 w h d.light d.color s i)
    ds s i

/-- `write_rgba` leaves every byte outside its four target indices
unchanged. -/
lemma write_rgba_eq_of_ne (pix : ℕ → ℕ) (o : ℕ) (c : Color) (i : ℕ)
    (h0 : i ≠ o) (h1 : i ≠ o + 1) (h2 : i ≠ o + 2) (h3 : i ≠ o + 3) :
    write_rgba pix o c i = pix i := by
  simp [write_rgba, h0, h1, h2, h3]

/-- Any byte changed by the bounds-guarded plot of `bres_loop` belongs to a
pixel inside the `width × height` grid. -/
lemma plot_changes_in_bounds (x0 y0 : ℤ) (w h : ℕ) (c : Color)
    (pix : ℕ → ℕ) (i : ℕ)
    (hi : (if 0 ≤ x0 ∧ x0 < (w : ℤ) ∧ 0 ≤ y0 ∧ y0 < (h : ℤ) then
        write_rgba pix ((y0.toNat * w + x0.toNat) * 4) c else pix) i ≠
      pix i) :
    ∃ px py k, px < w ∧ py < h ∧ k < 4 ∧ i = (py * w + px) * 4 + k := by
  by_cases hb : 0 ≤ x0 ∧ x0 < (w : ℤ) ∧ 0 ≤ y0 ∧ y0 < (h : ℤ)
  · rw [if_pos hb] at hi
    obtain ⟨hx0, hxw, hy0, hyh⟩ := hb
    have hmem : i = (y0.toNat * w + x0.toNat) * 4 ∨
        i = (y0.toNat * w + x0.toNat) * 4 + 1 ∨
        i = (y0.toNat * w + x0.toNat) * 4 + 2 ∨
        i = (y0.toNat * w + x0.toNat) * 4 + 3 := by
      by_contra hcon
      push_neg at hcon
      exact hi (write_rgba_eq_of_ne pix _ c i hcon.1 hcon.2.1 hcon.2.2.1
        hcon.2.2.2)
    refine ⟨x0.toNat, y0.toNat, i - (y0.toNat * w + x0.toNat) * 4,
      by omega, by omega, by omega, by omega⟩
  · rw [if_neg hb] at hi
    exact absurd rfl hi

/-- Correctness of the Bresenham loop: starting from any state whose error
term satisfies the loop invariant, with enough fuel the loop reaches exactly
the endpoint `(x1, y1)` and only changes bytes of in-bounds pixels.  The
invariant relates `err` to the remaining step counts
`rx = (x1 - x0) * sx` and `ry = (y1 - y0) * sy`. -/
lemma bres_loop_reaches (x1 y1 dx dy sx sy : ℤ) (w h : ℕ) (c : Color)
    (hdx : 0 ≤ dx) (hdy : dy ≤ 0) (hsx : sx = 1 ∨ sx = -1)
    (hsy : sy = 1 ∨ sy = -1) :
    ∀ (fuel : ℕ) (x0 y0 err : ℤ) (pix : ℕ → ℕ),
      (x1 - x0) * sx + (y1 - y0) * sy < (fuel : ℤ) →
      0 ≤ (x1 - x0) * sx → (x1 - x0) * sx ≤ dx →
      0 ≤ (y1 - y0) * sy → (y1 - y0) * sy ≤ -dy →
      err = dx + dy - (x1 - x0) * sx * dy - (y1 - y0) * sy * dx →
      ∃ pixF, bres_loop x1 y1 dx dy sx sy w h c fuel x0 y0 err pix =
          some (x1, y1, pixF) ∧
        ∀ i, pixF i ≠ pix i → ∃ px py k, px < w ∧ py < h ∧ k < 4 ∧
          i = (py * w + px) * 4 + k := by
  intro fuel
  induction fuel with
  | zero =>
      intro x0 y0 err pix hfuel hrx0 hrxd hry0 hryd herr
      push_cast at hfuel
      linarith
  | succ fuel ih =>
      intro x0 y0 err pix hfuel hrx0 hrxd hry0 hryd herr
      have hsx2 : sx * sx = 1 := by rcases hsx with hs | hs <;> rw [hs] <;> norm_num
      have hsy2 : sy * sy = 1 := by rcases hsy with hs | hs <;> rw [hs] <;> norm_num
      have hxz : (x1 - x0) * sx = 0 → x1 = x0 := by
        rcases hsx with hs | hs <;> rw [hs] <;> intro hh <;> nlinarith
      have hyz : (y1 - y0) * sy = 0 → y1 = y0 := by
        rcases hsy with hs | hs <;> rw [hs] <;> intro hh <;> nlinarith
      simp only [bres_loop]
      by_cases hend : x0 = x1 ∧ y0 = y1
      · obtain ⟨hx, hy⟩ := hend
        subst hx
        subst hy
        rw [if_pos ⟨rfl, rfl⟩]
        refine ⟨_, rfl, ?_⟩
        intro i hi
        exact plot_changes_in_bounds x0 y0 w h c pix i hi
      · rw [if_neg hend]
        -- shorthand for the remaining step counts
        have hne : ¬ ((x1 - x0) * sx = 0 ∧ (y1 - y0) * sy = 0) := by
          rintro ⟨ha, hb⟩
          exact hend ⟨(hxz ha).symm, (hyz hb).symm⟩
        by_cases hX : dy ≤ 2 * err
        · by_cases hY : 2 * err ≤ dx
          · -- both steps fire
            have hrx1 : 1 ≤ (x1 - x0) * sx := by
              rcases eq_or_lt_of_le hrx0 with he | hlt
              · exfalso
                have hry1 : 1 ≤ (y1 - y0) * sy := by
                  rcases eq_or_lt_of_le hry0 with he2 | hlt2
                  · exact absurd ⟨he.symm, he2.symm⟩ hne
                  · omega
                have hp : dx ≤ (y1 - y0) * sy * dx :=
                  le_mul_of_one_le_left hdx hry1
                have hdyneg : dy ≤ -1 := by linarith
                rw [herr, ← he] at hX
                linarith
              · omega
            have hry1 : 1 ≤ (y1 - y0) * sy := by
              rcases eq_or_lt_of_le hry0 with he | hlt
              · exfalso
                have hp : (x1 - x0) * sx * dy ≤ 1 * dy :=
                  mul_le_mul_of_nonpos_right hrx1 hdy
                have hdx1 : 1 ≤ dx := le_trans hrx1 hrxd
                rw [herr, ← he] at hY
                linarith
              · omega
            rw [if_pos hX, if_pos hX, if_pos hY, if_pos hY]
            have hrx' : (x1 - (x0 + sx)) * sx = (x1 - x0) * sx - 1 := by
              have hr : (x1 - (x0 + sx)) * sx = (x1 - x0) * sx - sx * sx := by
                ring
              rw [hr, hsx2]
            have hry' : (y1 - (y0 + sy)) * sy = (y1 - y0) * sy - 1 := by
              have hr : (y1 - (y0 + sy)) * sy = (y1 - y0) * sy - sy * sy := by
                ring
              rw [hr, hsy2]
            obtain ⟨pixF, heq, hpres⟩ := ih (x0 + sx) (y0 + sy)
              (err + dy + dx) _
              (by rw [hrx', hry']; push_cast at hfuel; linarith)
              (by rw [hrx']; linarith) (by rw [hrx']; linarith)
              (by rw [hry']; linarith) (by rw [hry']; linarith)
              (by rw [hrx', hry', herr]; ring)
            refine ⟨pixF, heq, ?_⟩
            intro i hi
            by_cases hmid : pixF i =
                (if 0 ≤ x0 ∧ x0 < (w : ℤ) ∧ 0 ≤ y0 ∧ y0 < (h : ℤ) then
                  write_rgba pix ((y0.toNat * w + x0.toNat) * 4) c else pix) i
            · exact plot_changes_in_bounds x0 y0 w h c pix i (hmid ▸ hi)
            · exact hpres i hmid
          · -- only the x step fires
            have hrx1 : 1 ≤ (x1 - x0) * sx := by
              rcases eq_or_lt_of_le hrx0 with he | hlt
              · exfalso
                have hry1 : 1 ≤ (y1 - y0) * sy := by
                  rcases eq_or_lt_of_le hry0 with he2 | hlt2
                  · exact absurd ⟨he.symm, he2.symm⟩ hne
                  · omega
                have hp : dx ≤ (y1 - y0) * sy * dx :=
                  le_mul_of_one_le_left hdx hry1
                have hdyneg : dy ≤ -1 := by linarith
                rw [herr, ← he] at hX
                linarith
              · omega
            rw [if_pos hX, if_pos hX, if_neg hY, if_neg hY]
            have hrx' : (x1 - (x0 + sx)) * sx = (x1 - x0) * sx - 1 := by
              have hr : (x1 - (x0 + sx)) * sx = (x1 - x0) * sx - sx * sx := by
                ring
              rw [hr, hsx2]
            obtain ⟨pixF, heq, hpres⟩ := ih (x0 + sx) y0 (err + dy) _
              (by rw [hrx']; push_cast at hfuel; linarith)
              (by rw [hrx']; linarith) (by rw [hrx']; linarith)
              hry0 hryd
              (by rw [hrx', herr]; ring)
            refine ⟨pixF, heq, ?_⟩
            intro i hi
            by_cases hmid : pixF i =
                (if 0 ≤ x0 ∧ x0 < (w : ℤ) ∧ 0 ≤ y0 ∧ y0 < (h : ℤ) then
                  write_rgba pix ((y0.toNat * w + x0.toNat) * 4) c else pix) i
            · exact plot_changes_in_bounds x0 y0 w h c pix i (hmid ▸ hi)
            · exact hpres i hmid
        · -- the x step does not fire, so the y step must
          have hY : 2 * err ≤ dx := by linarith
          have hry1 : 1 ≤ (y1 - y0) * sy := by
            rcases eq_or_lt_of_le hry0 with he | hlt
            · exfalso
              have hrx1 : 1 ≤ (x1 - x0) * sx := by
                rcases eq_or_lt_of_le hrx0 with he2 | hlt2
                · exact absurd ⟨he2.symm, he.symm⟩ hne
                · omega
              have hp : (x1 - x0) * sx * dy ≤ 1 * dy :=
                mul_le_mul_of_nonpos_right hrx1 hdy
              have hdx1 : 1 ≤ dx := le_trans hrx1 hrxd
              rw [herr, ← he] at hX
              push_neg at hX
              linarith
            · omega
          rw [if_neg hX, if_neg hX, if_pos hY, if_pos hY]
          have hry' : (y1 - (y0 + sy)) * sy = (y1 - y0) * sy - 1 := by
            have hr : (y1 - (y0 + sy)) * sy = (y1 - y0) * sy - sy * sy := by
              ring
            rw [hr, hsy2]
          obtain ⟨pixF, heq, hpres⟩ := ih x0 (y0 + sy) (err + dx) _
            (by rw [hry']; push_cast at hfuel; linarith)
            hrx0 hrxd
            (by rw [hry']; linarith) (by rw [hry']; linarith)
            (by rw [hry', herr]; ring)
          refine ⟨pixF, heq, ?_⟩
          intro i hi
          by_cases hmid : pixF i =
              (if 0 ≤ x0 ∧ x0 < (w : ℤ) ∧ 0 ≤ y0 ∧ y0 < (h : ℤ) then
                write_rgba pix ((y0.toNat * w + x0.toNat) * 4) c else pix) i
          · exact plot_changes_in_bounds x0 y0 w h c pix i (hmid ▸ hi)
          · exact hpres i hmid

/-- A pixel step touches no pixel byte at index `≥ width * height * 4` when
its pixel lies inside the grid. -/
lemma rasterize_pixel_pix_high (v0 v1 v2 : Vertex) (w h : ℕ) (area : ℝ)
    (l : Fin 3 → ℝ) (c : Color) (x y : ℕ) (s : Buffers) (i : ℕ)
    (hx : x < w) (hy : y < h) (hi : w * h * 4 ≤ i) :
    (rasterize_pixel v0 v1 v2 w area l c x y s).pix i = s.pix i := by
  have ho : y * w + x < w * h := by
    calc y * w + x < y * w + w := by omega
      _ = (y + 1) * w := by ring
      _ ≤ h * w := Nat.mul_le_mul_right w (by omega)
      _ = w * h := Nat.mul_comm h w
  simp only [rasterize_pixel]
  split
  · split
    · rfl
    · split
      · dsimp only
        refine write_rgba_eq_of_ne _ _ _ _ ?_ ?_ ?_ ?_ <;>
          · generalize hgo : y * w + x = o at ho ⊢
            generalize hgW : w * h = W at ho hi ⊢
            omega
      · rfl
  · rfl

/-- A pixel step touches no depth entry at index `≥ width * height` when its
pixel lies inside the grid. -/
lemma rasterize_pixel_zbuf_high (v0 v1 v2 : Vertex) (w h : ℕ) (area : ℝ)
    (l : Fin 3 → ℝ) (c : Color) (x y : ℕ) (s : Buffers) (i : ℕ)
    (hx : x < w) (hy : y < h) (hi : w * h ≤ i) :
    (rasterize_pixel v0 v1 v2 w area l c x y s).zbuf i = s.zbuf i := by
  have ho : y * w + x < w * h := by
    calc y * w + x < y * w + w := by omega
      _ = (y + 1) * w := by ring
      _ ≤ h * w := Nat.mul_le_mul_right w (by omega)
      _ = w * h := Nat.mul_comm h w
  simp only [rasterize_pixel]
  split
  · split
    · rfl
    · split
      · dsimp only
        rw [if_neg (by omega)]
      · rfl
  · rfl

/-- The clamped `max_x` never exceeds `width - 1`. -/
lemma tri_max_x_le (v0 v1 v2 : Vertex) (w : ℕ) :
    tri_max_x v0 v1 v2 w ≤ w - 1 := by
  have h1 : Int.toNat (min ⌈max (max v0.screen_position.1
      v1.screen_position.1) v2.screen_position.1⌉ ((w : ℤ) - 1)) ≤
      Int.toNat ((w : ℤ) - 1) :=
    Int.toNat_le_toNat (min_le_right _ _)
  have h2 : Int.toNat ((w : ℤ) - 1) = w - 1 := by omega
  rw [tri_max_x]
  omega

/-- The clamped `max_y` never exceeds `height - 1`. -/
lemma tri_max_y_le (v0 v1 v2 : Vertex) (h : ℕ) :
    tri_max_y v0 v1 v2 h ≤ h - 1 := by
  have h1 : Int.toNat (min ⌈max (max v0.screen_position.2
      v1.screen_position.2) v2.screen_position.2⌉ ((h : ℤ) - 1)) ≤
      Int.toNat ((h : ℤ) - 1) :=
    Int.toNat_le_toNat (min_le_right _ _)
  have h2 : Int.toNat ((h : ℤ) - 1) = h - 1 := by omega
  rw [tri_max_y]
  omega

/-- Folding steps that each fix byte `i` fixes byte `i`. -/
lemma foldl_pix_eq_of_mem {α : Type} (f : Buffers → α → Buffers) (i : ℕ)
    (L : List α) (hstep : ∀ s a, a ∈ L → (f s a).pix i = s.pix i) :
    ∀ s, (L.foldl f s).pix i = s.pix i := by
  induction L with
  | nil => intro s; rfl
  | cons a t ih =>
      intro s
      rw [List.foldl_cons, ih (fun s b hb => hstep s b (by simp [hb]))]
      exact hstep s a (by simp)

/-- Folding steps that each fix depth entry `i` fixes depth entry `i`. -/
lemma foldl_zbuf_eq_of_mem {α : Type} (f : Buffers → α → Buffers) (i : ℕ)
    (L : List α) (hstep : ∀ s a, a ∈ L → (f s a).zbuf i = s.zbuf i) :
    ∀ s, (L.foldl f s).zbuf i = s.zbuf i := by
  induction L with
  | nil => intro s; rfl
  | cons a t ih =>
      intro s
      rw [List.foldl_cons, ih (fun s b hb => hstep s b (by simp [hb]))]
      exact hstep s a (by simp)

/-- Folding buffer-function steps that each fix index `i` fixes index `i`. -/
lemma foldl_fun_eq_of_mem {α : Type} (f : (ℕ → ℕ) → α → (ℕ → ℕ)) (i : ℕ)
    (L : List α) (hstep : ∀ p a, a ∈ L → f p a i = p i) :
    ∀ p, (L.foldl f p) i = p i := by
  induction L with
  | nil => intro p; rfl
  | cons a t ih =>
      intro p
      rw [List.foldl_cons, ih (fun p b hb => hstep p b (by simp [hb]))]
      exact hstep p a (by simp)

/-- `draw_triangle` touches no pixel byte at index `≥ width * height * 4`:
its loop bounds are clamped into the grid. -/
lemma draw_triangle_pix_high (v0 v1 v2 : Vertex) (w h : ℕ) (l : Fin 3 → ℝ)
    (c : Color) (s : Buffers) (i : ℕ) (hw : 1 ≤ w) (hh : 1 ≤ h)
    (hi : w * h * 4 ≤ i) :
    (draw_triangle v0 v1 v2 w h l c s).pix i = s.pix i := by
  rw [draw_triangle_eq_foldl_pairs]
  refine foldl_pix_eq_of_mem _ i _ (fun s q hq => ?_) s
  obtain ⟨y, hy, hq2⟩ := List.mem_flatMap.mp hq
  obtain ⟨x, hx, rfl⟩ := List.mem_map.mp hq2
  have hxb : x ≤ tri_max_x v0 v1 v2 w := by
    obtain ⟨hx1, hx2⟩ := List.mem_range'_1.mp hx
    omega
  have hyb : y ≤ tri_max_y v0 v1 v2 h := by
    obtain ⟨hy1, hy2⟩ := List.mem_range'_1.mp hy
    omega
  have hxw : x < w := by
    have := tri_max_x_le v0 v1 v2 w
    omega
  have hyh : y < h := by
    have := tri_max_y_le v0 v1 v2 h
    omega
  exact rasterize_pixel_pix_high v0 v1 v2 w h _ l c x y s i hxw hyh hi

/-- `draw_triangle` touches no depth entry at index `≥ width * height`. -/
lemma draw_triangle_zbuf_high (v0 v1 v2 : Vertex) (w h : ℕ) (l : Fin 3 → ℝ)
    (c : Color) (s : Buffers) (i : ℕ) (hw : 1 ≤ w) (hh : 1 ≤ h)
    (hi : w * h ≤ i) :
    (draw_triangle v0 v1 v2 w h l c s).zbuf i = s.zbuf i := by
  rw [draw_triangle_eq_foldl_pairs]
  refine foldl_zbuf_eq_of_mem _ i _ (fun s q hq => ?_) s
  obtain ⟨y, hy, hq2⟩ := List.mem_flatMap.mp hq
  obtain ⟨x, hx, rfl⟩ := List.mem_map.mp hq2
  have hxb : x ≤ tri_max_x v0 v1 v2 w := by
    obtain ⟨hx1, hx2⟩ := List.mem_range'_1.mp hx
    omega
  have hyb : y ≤ tri_max_y v0 v1 v2 h := by
    obtain ⟨hy1, hy2⟩ := List.mem_range'_1.mp hy
    omega
  have hxw : x < w := by
    have := tri_max_x_le v0 v1 v2 w
    omega
  have hyh : y < h := by
    have := tri_max_y_le v0 v1 v2 h
    omega
  exact rasterize_pixel_zbuf_high v0 v1 v2 w h _ l c x y s i hxw hyh hi

/-- **C9** Applying the combined matrix `multiply_matrices a b` to a vector
with `multiply_matrix_vector` agrees with applying `b` and then `a` in two
sequential `multiply_matrix_vector` calls, for every pair of 3×3 matrices
and every 3-vector (in particular for `rotation_y` and `rotation_x` as
combined in `CubeWidget::compute_projected_vertices`). -/
theorem multiply_matrices_combined_eq_sequential
    (a b : Fin 3 → Fin 3 → ℝ) (v : Fin 3 → ℝ) :
    multiply_matrix_vector (multiply_matrices a b) v =
      multiply_matrix_vector a (multiply_matrix_vector b v) := by
  funext i
  simp only [multiply_matrix_vector, multiply_matrices, Fin.sum_univ_three]
  ring

/-- **C6** `calculate_light_intensity` computes exactly
`max(dot(normal, normalize(light_pos - position)), 0.1)`; its value is never
below the ambient floor `0.1`; and when the normalized light direction is
perpendicular to the normal (dot product `0`) it equals exactly `0.1`. -/
theorem calculate_light_intensity_spec :
    (∀ n p l : Fin 3 → ℝ,
        calculate_light_intensity n p l = spec_intensity n p l) ∧
    (∀ n p l : Fin 3 → ℝ, 0.1 ≤ calculate_light_intensity n p l) ∧
    (∀ n p l : Fin 3 → ℝ,
        spec_dot n (spec_normalize (fun i => l i - p i)) = 0 →
        calculate_light_intensity n p l = 0.1) := by
  have hspec : ∀ n p l : Fin 3 → ℝ,
      calculate_light_intensity n p l = spec_intensity n p l := by
    intro n p l
    simp only [calculate_light_intensity, spec_intensity, spec_dot,
      spec_normalize]
  refine ⟨hspec, ?_, ?_⟩
  · intro n p l
    rw [hspec]
    exact le_max_right _ _
  · intro n p l h
    rw [hspec, spec_intensity, h]
    norm_num

/-- Witness for C6: normal `(0,0,1)`, sample point at the origin and light at
`(1,0,0)` give a normalized light direction `(1,0,0)` perpendicular to the
normal, and the computed intensity is exactly the ambient floor `0.1`. -/
theorem calculate_light_intensity_spec_witness :
    calculate_light_intensity ![0, 0, 1] ![0, 0, 0] ![1, 0, 0] = 0.1 := by
  refine calculate_light_intensity_spec.2.2 ![0, 0, 1] ![0, 0, 0] ![1, 0, 0] ?_
  simp [spec_dot, spec_normalize]

/-- **C7** When the light position coincides with the sample point the light
direction is the zero vector (length 0) and `calculate_light_intensity`
returns the ambient floor `0.1`.  (In the Rust source this happens through
`0.0/0.0 = NaN` direction components, a `NaN` dot product, and
`f64::max(NaN, 0.1) = 0.1`; the embedding reaches the same value through its
total division.) -/
theorem calculate_light_intensity_light_at_point
    (n p l : Fin 3 → ℝ) (h : l = p) :
    calculate_light_intensity n p l = 0.1 := by
  subst h
  simp [calculate_light_intensity]
  norm_num

/-- Witness for C7: with the light exactly at the sample point `(1,2,3)` the
intensity evaluates to `0.1`. -/
theorem calculate_light_intensity_light_at_point_witness :
    calculate_light_intensity ![0, 0, 1] ![1, 2, 3] ![1, 2, 3] = 0.1 :=
  calculate_light_intensity_light_at_point ![0, 0, 1] ![1, 2, 3] ![1, 2, 3] rfl

/-- **C1 counterexample** For the clockwise triangle with screen vertices
`(0,0)`, `(2,0)`, `(0,2)` (signed area `-4`) and the pixel center
`(0.5, 0.5)` strictly inside it, the spec's sign-sharing rule holds (all
three edge values are `≤ 0`, matching the negative area) but the
rasterizer's test `w0 >= 0 && w1 >= 0 && w2 >= 0` does not: the two
predicates are not equivalent. -/
theorem inside_rule_counterexample :
    ¬ (insideTest exNegV0 exNegV1 exNegV2 ((0.5 : ℝ), (0.5 : ℝ)) ↔
      spec_inside exNegV0 exNegV1 exNegV2 ((0.5 : ℝ), (0.5 : ℝ))) := by
  intro hiff
  have hspec : spec_inside exNegV0 exNegV1 exNegV2 ((0.5 : ℝ), (0.5 : ℝ)) := by
    refine Or.inr ⟨?_, ?_, ?_, ?_⟩ <;>
      norm_num [w0val, w1val, w2val, edge_function, exNegV0, exNegV1, exNegV2]
  have hin := hiff.mpr hspec
  have h0 := hin.1
  norm_num [w0val, edge_function, exNegV1, exNegV2] at h0

/-- **C1 (amended)** The rasterizer treats a pixel as inside iff all three
edge values are nonnegative.  For positive-area triangles this coincides
with the spec's sign-sharing rule (inclusive of zero); for negative-area
triangles it does not — no pixel at all passes the test there. -/
theorem inside_rule_amended :
    (∀ (v0 v1 v2 : Vertex) (p : ℝ × ℝ),
        0 < edge_function v0.screen_position v1.screen_position
          v2.screen_position →
        (insideTest v0 v1 v2 p ↔ spec_inside v0 v1 v2 p)) ∧
    (∀ (v0 v1 v2 : Vertex) (p : ℝ × ℝ),
        edge_function v0.screen_position v1.screen_position
          v2.screen_position < 0 →
        ¬ insideTest v0 v1 v2 p) := by
  constructor
  · intro v0 v1 v2 p hpos
    constructor
    · intro hin
      exact Or.inl ⟨hpos, hin.1, hin.2.1, hin.2.2⟩
    · rintro (⟨_, h0, h1, h2⟩ | ⟨hneg, _⟩)
      · exact ⟨h0, h1, h2⟩
      · linarith
  · exact fun v0 v1 v2 p => not_insideTest_of_area_neg v0 v1 v2 p

/-- Witness for the amended C1: on the counterclockwise triangle with screen
vertices `(0,0)`, `(0,4)`, `(4,0)` (area `16`) the two inclusion rules agree
at pixel center `(1.5, 1.5)`, and on the clockwise triangle `(0,0)`, `(2,0)`,
`(0,2)` no pixel center passes the rasterizer's test. -/
theorem inside_rule_amended_witness :
    (insideTest exPosV0 exPosV1 exPosV2 ((1.5 : ℝ), (1.5 : ℝ)) ↔
      spec_inside exPosV0 exPosV1 exPosV2 ((1.5 : ℝ), (1.5 : ℝ))) ∧
    ¬ insideTest exNegV0 exNegV1 exNegV2 ((0.5 : ℝ), (0.5 : ℝ)) := by
  constructor
  · refine inside_rule_amended.1 exPosV0 exPosV1 exPosV2 _ ?_
    norm_num [edge_function, exPosV0, exPosV1, exPosV2]
  · refine inside_rule_amended.2 exNegV0 exNegV1 exNegV2 _ ?_
    norm_num [edge_function, exNegV0, exNegV1, exNegV2]

/-- **C2 counterexample** The clockwise (negative-area) triangle with screen
vertices `(0,0)`, `(2,0)`, `(0,2)` has an interior pixel — its center
`(0.5, 0.5)` satisfies the spec's inclusion rule — and yet `draw_triangle`
rasterizes nothing at all for it: the cleared buffers come back unchanged.
So rasterization is not independent of the winding order. -/
theorem no_backface_culling_counterexample :
    spec_inside exNegV0 exNegV1 exNegV2 ((0.5 : ℝ), (0.5 : ℝ)) ∧
      draw_triangle exNegV0 exNegV1 exNegV2 5 5 exLight exRed cleared =
        cleared := by
  constructor
  · refine Or.inr ⟨?_, ?_, ?_, ?_⟩ <;>
      norm_num [w0val, w1val, w2val, edge_function, exNegV0, exNegV1, exNegV2]
  · refine draw_triangle_eq_of_neg_area exNegV0 exNegV1 exNegV2 5 5 exLight
      exRed cleared ?_
    norm_num [edge_function, exNegV0, exNegV1, exNegV2]

/-- **C2 (amended)** The engine does cull by winding: a triangle whose
screen-space signed area (`edge_function` of its three screen positions) is
negative produces no writes at all — `draw_triangle` returns the buffers
unchanged.  Only triangles with nonnegative signed area are rasterized, with
visibility among them resolved by the depth test. -/
theorem negative_winding_is_culled (v0 v1 v2 : Vertex) (w h : ℕ)
    (l : Fin 3 → ℝ) (c : Color) (s : Buffers)
    (hneg : edge_function v0.screen_position v1.screen_position
        v2.screen_position < 0) :
    draw_triangle v0 v1 v2 w h l c s = s :=
  draw_triangle_eq_of_neg_area v0 v1 v2 w h l c s hneg

/-- Witness for the amended C2: the clockwise triangle with screen vertices
`(0,0)`, `(4,0)`, `(0,4)` (area `-16`) leaves the cleared buffers
unchanged. -/
theorem negative_winding_is_culled_witness :
    draw_triangle exPosV0 exPosV2 exPosV1 5 5 exLight exRed cleared =
      cleared := by
  refine negative_winding_is_culled exPosV0 exPosV2 exPosV1 5 5 exLight exRed
    cleared ?_
  norm_num [edge_function, exPosV0, exPosV1, exPosV2]

/-- **C3** A triangle whose signed area is exactly zero is skipped by
`draw_triangle`: the pixel and depth buffers come back unchanged.  (The Rust
source has no explicit guard; the three edge values of any pixel that passes
the inclusion test sum to the zero area, so all are zero, the barycentric
divisions are `0.0/0.0 = NaN`, the interpolated depth is `NaN`, and the IEEE
depth comparison `NaN < z` fails — nothing is written.) -/
theorem zero_area_triangle_skipped (v0 v1 v2 : Vertex) (w h : ℕ)
    (l : Fin 3 → ℝ) (c : Color) (s : Buffers)
    (hzero : edge_function v0.screen_position v1.screen_position
        v2.screen_position = 0) :
    draw_triangle v0 v1 v2 w h l c s = s :=
  draw_triangle_eq_of_zero_area v0 v1 v2 w h l c s hzero

/-- Witness for C3: the degenerate triangle with collinear screen vertices
`(0,0)`, `(1,1)`, `(2,2)` leaves the cleared buffers unchanged. -/
theorem zero_area_triangle_skipped_witness :
    draw_triangle exDegV0 exDegV1 exDegV2 5 5 exLight exRed cleared =
      cleared := by
  refine zero_area_triangle_skipped exDegV0 exDegV1 exDegV2 5 5 exLight exRed
    cleared ?_
  norm_num [edge_function, exDegV0, exDegV1, exDegV2]

/-- **C4** For an inside pixel of a nonzero-area triangle, the per-pixel
step writes the interpolated world-space `z` into the depth buffer and
shades the pixel iff that `z` is strictly below the stored depth (skipping
the pixel entirely otherwise); consequently neither a single
`draw_triangle` call nor any sequence of calls within one frame (which
starts from the `+∞`-cleared depth buffer) ever increases any depth-buffer
entry. -/
theorem depth_test_governs_writes :
    (∀ (v0 v1 v2 : Vertex) (w : ℕ) (l : Fin 3 → ℝ) (c : Color) (x y : ℕ)
        (s : Buffers),
      insideTest v0 v1 v2 ((x : ℝ) + 0.5, (y : ℝ) + 0.5) →
      ∀ area : ℝ, area ≠ 0 →
      (((interpolated_z v0 v1 v2 area ((x : ℝ) + 0.5, (y : ℝ) + 0.5) : ℝ) :
            WithTop ℝ) < s.zbuf (y * w + x) →
          rasterize_pixel v0 v1 v2 w area l c x y s =
            { pix := write_rgba s.pix ((y * w + x) * 4)
                (pixel_shade v0 v1 v2 area l c ((x : ℝ) + 0.5, (y : ℝ) + 0.5)),
              zbuf := fun i => if i = y * w + x then
                ((interpolated_z v0 v1 v2 area ((x : ℝ) + 0.5, (y : ℝ) + 0.5) :
                  ℝ) : WithTop ℝ) else s.zbuf i }) ∧
        (¬ ((interpolated_z v0 v1 v2 area ((x : ℝ) + 0.5, (y : ℝ) + 0.5) : ℝ) :
            WithTop ℝ) < s.zbuf (y * w + x) →
          rasterize_pixel v0 v1 v2 w area l c x y s = s)) ∧
    (∀ (v0 v1 v2 : Vertex) (w h : ℕ) (l : Fin 3 → ℝ) (c : Color) (s : Buffers)
        (i : ℕ), (draw_triangle v0 v1 v2 w h l c s).zbuf i ≤ s.zbuf i) ∧
    (∀ (w h : ℕ) (ds : List DrawCall) (s : Buffers) (i : ℕ),
      (draw_calls w h ds s).zbuf i ≤ s.zbuf i) := by
  refine ⟨?_, draw_triangle_zbuf_le, draw_calls_zbuf_le⟩
  intro v0 v1 v2 w l c x y s hin area ha
  exact ⟨fun hz => rasterize_pixel_write v0 v1 v2 w area l c x y s hin ha hz,
    fun hz => rasterize_pixel_skip v0 v1 v2 w area l c x y s ha hz⟩

/-- Witness for C4: on the positive triangle (screen `(0,0)`, `(0,4)`,
`(4,0)`, constant depth `2`, area `16`), pixel `(1,1)` of a width-5 buffer
passes the depth test against the cleared (`+∞`) depth buffer and performs
exactly the depth-and-colour write. -/
theorem depth_test_governs_writes_witness :
    rasterize_pixel exPosV0 exPosV1 exPosV2 5 16 exLight exRed 1 1 cleared =
      { pix := write_rgba cleared.pix 24
          (pixel_shade exPosV0 exPosV1 exPosV2 16 exLight exRed
            ((1 : ℝ) + 0.5, (1 : ℝ) + 0.5)),
        zbuf := fun i => if i = 6 then
          ((interpolated_z exPosV0 exPosV1 exPosV2 16
            ((1 : ℝ) + 0.5, (1 : ℝ) + 0.5) : ℝ) : WithTop ℝ)
          else cleared.zbuf i } := by
  have h := ((depth_test_governs_writes.1 exPosV0 exPosV1 exPosV2 5 exLight
      exRed 1 1 cleared
      (by refine ⟨?_, ?_, ?_⟩ <;>
        norm_num [insideTest, w0val, w1val, w2val, edge_function, exPosV0,
          exPosV1, exPosV2])
      16 (by norm_num)).1
      (by simp [cleared]))
  simpa using h

/-- `draw_line`'s run reaches the rounded endpoint and only changes bytes of
in-bounds pixels (helper behind the C10 theorem). -/
lemma draw_line_run_reaches (x0f y0f x1f y1f : ℝ) (pix : ℕ → ℕ) (w h : ℕ)
    (c : Color) :
    draw_line_run x0f y0f x1f y1f pix w h c =
      some (rust_round x1f, rust_round y1f,
        draw_line x0f y0f x1f y1f pix w h c) ∧
    ∀ i, draw_line x0f y0f x1f y1f pix w h c i ≠ pix i →
      ∃ px py k, px < w ∧ py < h ∧ k < 4 ∧ i = (py * w + px) * 4 + k := by
  have hrxe : (rust_round x1f - rust_round x0f) *
      (if rust_round x0f < rust_round x1f then (1 : ℤ) else -1) =
      |rust_round x1f - rust_round x0f| := by
    split_ifs with hc
    · rw [mul_one, abs_of_pos (by omega)]
    · rw [mul_neg_one, ← abs_of_nonpos (a := rust_round x1f - rust_round x0f)
        (by omega)]
  have hrye : (rust_round y1f - rust_round y0f) *
      (if rust_round y0f < rust_round y1f then (1 : ℤ) else -1) =
      |rust_round y1f - rust_round y0f| := by
    split_ifs with hc
    · rw [mul_one, abs_of_pos (by omega)]
    · rw [mul_neg_one, ← abs_of_nonpos (a := rust_round y1f - rust_round y0f)
        (by omega)]
  obtain ⟨pixF, heq, hpres⟩ := bres_loop_reaches (rust_round x1f)
    (rust_round y1f) |rust_round x1f - rust_round x0f|
    (-|rust_round y1f - rust_round y0f|)
    (if rust_round x0f < rust_round x1f then 1 else -1)
    (if rust_round y0f < rust_round y1f then 1 else -1) w h c
    (abs_nonneg _) (neg_nonpos.mpr (abs_nonneg _))
    (by split_ifs <;> simp) (by split_ifs <;> simp)
    ((|rust_round x1f - rust_round x0f| -
      -|rust_round y1f - rust_round y0f|).toNat + 1)
    (rust_round x0f) (rust_round y0f)
    (|rust_round x1f - rust_round x0f| + -|rust_round y1f - rust_round y0f|)
    pix
    (by
      rw [hrxe, hrye]
      have h1 := abs_nonneg (rust_round x1f - rust_round x0f)
      have h2 := abs_nonneg (rust_round y1f - rust_round y0f)
      push_cast [Int.toNat_of_nonneg
        (by linarith : (0 : ℤ) ≤ |rust_round x1f - rust_round x0f| -
          -|rust_round y1f - rust_round y0f|)]
      linarith)
    (by rw [hrxe]; exact abs_nonneg _) (by rw [hrxe])
    (by rw [hrye]; exact abs_nonneg _) (by rw [hrye]; rw [neg_neg])
    (by rw [hrxe, hrye]; ring)
  have hrun : draw_line_run x0f y0f x1f y1f pix w h c =
      some (rust_round x1f, rust_round y1f, pixF) := by
    simp only [draw_line_run]
    exact heq
  have hdl : draw_line x0f y0f x1f y1f pix w h c = pixF := by
    simp only [draw_line, hrun]
  constructor
  · rw [hrun, hdl]
  · intro i hi
    rw [hdl] at hi
    exact hpres i hi

/-- `draw_line` touches no byte at index `≥ width * height * 4`: the
plotted pixels are bounds-guarded. -/
lemma draw_line_pix_high (x0f y0f x1f y1f : ℝ) (p : ℕ → ℕ) (w h : ℕ)
    (c : Color) (i : ℕ) (hi : w * h * 4 ≤ i) :
    draw_line x0f y0f x1f y1f p w h c i = p i := by
  by_contra hne
  obtain ⟨px, py, k, hpx, hpy, hk, hik⟩ :=
    (draw_line_run_reaches x0f y0f x1f y1f p w h c).2 i hne
  have ho : py * w + px < w * h := by
    calc py * w + px < py * w + w := by omega
      _ = (py + 1) * w := by ring
      _ ≤ h * w := Nat.mul_le_mul_right w (by omega)
      _ = w * h := Nat.mul_comm h w
  generalize hgo : py * w + px = o at ho hik
  generalize hgW : w * h = W at ho hi
  omega

/-- **C10** `draw_line` terminates with the Bresenham walk having reached
exactly the rounded endpoint `(round x1, round y1)` (the loop's fuel is
sufficient), and it changes only bytes of pixels with `0 ≤ x < width` and
`0 ≤ y < height`: out-of-bounds steps along the path are skipped by the
bounds guard without stopping the stepping, and the buffer is never
accessed out of range. -/
theorem draw_line_spec (x0f y0f x1f y1f : ℝ) (pix : ℕ → ℕ) (w h : ℕ)
    (c : Color) :
    draw_line_run x0f y0f x1f y1f pix w h c =
      some (rust_round x1f, rust_round y1f,
        draw_line x0f y0f x1f y1f pix w h c) ∧
    ∀ i, draw_line x0f y0f x1f y1f pix w h c i ≠ pix i →
      ∃ px py k, px < w ∧ py < h ∧ k < 4 ∧ i = (py * w + px) * 4 + k :=
  draw_line_run_reaches x0f y0f x1f y1f pix w h c

/-- Witness for C10: drawing the line from `(0,0)` to `(1,1)` into a 5×5
buffer changes byte 0 (it becomes the red channel 255 ≠ 0), and the theorem
locates that byte inside the pixel grid. -/
theorem draw_line_spec_witness :
    ∃ px py k, px < 5 ∧ py < 5 ∧ k < 4 ∧ 0 = (py * 5 + px) * 4 + k := by
  refine (draw_line_spec 0 0 1 1 (fun _ => 0) 5 5 exRed).2 0 ?_
  have h0 : rust_round (0 : ℝ) = 0 := by
    rw [rust_round, if_pos le_rfl, Int.floor_eq_iff]
    norm_num
  have h1 : rust_round (1 : ℝ) = 1 := by
    rw [rust_round, if_pos (by norm_num : (0 : ℝ) ≤ 1), Int.floor_eq_iff]
    norm_num
  simp only [draw_line, draw_line_run, h0, h1]
  norm_num [bres_loop, write_rgba, exRed, Color.rgb8]

/-- **C5** Rendering is idempotent over cleared buffers: drawing the same
triangle twice into freshly cleared pixel and depth buffers produces exactly
the same buffers as drawing it once (the second pass fails the depth test at
every pixel it reaches). -/
theorem draw_triangle_idempotent_from_cleared (v0 v1 v2 : Vertex) (w h : ℕ)
    (l : Fin 3 → ℝ) (c : Color) :
    draw_triangle v0 v1 v2 w h l c (draw_triangle v0 v1 v2 w h l c cleared) =
      draw_triangle v0 v1 v2 w h l c cleared :=
  draw_triangle_twice v0 v1 v2 w h l c cleared

set_option maxHeartbeats 1000000 in
/-- Evaluation of the projected vertices in the 5×5 scenario: with zero
angles the combined rotation is the identity, the scale is `1/8`, the screen
center `(5/2, 5/2)`, and the translation zero, so the screen position is the
corner's `xy` scaled and centered and the world depth is the corner's `z`. -/
lemma exV_eval (n : ℕ) :
    (compute_projected_vertices 5 5 exState n).screen_position =
      (cube_vertices n 0 * (1 / 8) + 5 / 2,
        cube_vertices n 1 * (1 / 8) + 5 / 2) ∧
    (compute_projected_vertices 5 5 exState n).position 2 =
      cube_vertices n 2 := by
  refine ⟨?_, ?_⟩
  · simp [compute_projected_vertices, exState, multiply_matrices,
      multiply_matrix_vector, rotation_x_matrix, rotation_y_matrix,
      Fin.sum_univ_three, Real.cos_zero, Real.sin_zero]
    norm_num
  · simp [compute_projected_vertices, exState, multiply_matrices,
      multiply_matrix_vector, rotation_x_matrix, rotation_y_matrix,
      Fin.sum_univ_three, Real.cos_zero, Real.sin_zero]

set_option maxHeartbeats 1000000 in
/-- In the 5×5 scenario, the first triangle `(5,4,7)` of the `z = +1` face
has positive area `1/16`; of the four bounding-box pixels only `(2,2)`
passes the inclusion test, it passes the depth test against the cleared
buffer, and its depth and colour are written. -/
lemma ex_face1_tri1 :
    draw_triangle (compute_projected_vertices 5 5 exState 5)
      (compute_projected_vertices 5 5 exState 4)
      (compute_projected_vertices 5 5 exState 7) 5 5 exState.light_position
      (face_colors 1) cleared =
    { pix := write_rgba cleared.pix ((2 * 5 + 2) * 4)
        (pixel_shade (compute_projected_vertices 5 5 exState 5)
          (compute_projected_vertices 5 5 exState 4)
          (compute_projected_vertices 5 5 exState 7)
          (edge_function
            (compute_projected_vertices 5 5 exState 5).screen_position
            (compute_projected_vertices 5 5 exState 4).screen_position
            (compute_projected_vertices 5 5 exState 7).screen_position)
          exState.light_position (face_colors 1)
          (((2 : ℕ) : ℝ) + 0.5, ((2 : ℕ) : ℝ) + 0.5)),
      zbuf := fun i => if i = 2 * 5 + 2 then
        ((interpolated_z (compute_projected_vertices 5 5 exState 5)
          (compute_projected_vertices 5 5 exState 4)
          (compute_projected_vertices 5 5 exState 7)
          (edge_function
            (compute_projected_vertices 5 5 exState 5).screen_position
            (compute_projected_vertices 5 5 exState 4).screen_position
            (compute_projected_vertices 5 5 exState 7).screen_position)
          (((2 : ℕ) : ℝ) + 0.5, ((2 : ℕ) : ℝ) + 0.5) : ℝ) : WithTop ℝ)
        else cleared.zbuf i } := by
  have hs5 : (compute_projected_vertices 5 5 exState 5).screen_position =
      ((2.625 : ℝ), (2.375 : ℝ)) := by
    rw [(exV_eval 5).1]; norm_num [cube_vertices]
  have hs4 : (compute_projected_vertices 5 5 exState 4).screen_position =
      ((2.375 : ℝ), (2.375 : ℝ)) := by
    rw [(exV_eval 4).1]; norm_num [cube_vertices]
  have hs7 : (compute_projected_vertices 5 5 exState 7).screen_position =
      ((2.375 : ℝ), (2.625 : ℝ)) := by
    rw [(exV_eval 7).1]; norm_num [cube_vertices]
  have harea : edge_function
      (compute_projected_vertices 5 5 exState 5).screen_position
      (compute_projected_vertices 5 5 exState 4).screen_position
      (compute_projected_vertices 5 5 exState 7).screen_position =
      1 / 16 := by
    rw [hs5, hs4, hs7]; norm_num [edge_function]
  have hminx : tri_min_x (compute_projected_vertices 5 5 exState 5)
      (compute_projected_vertices 5 5 exState 4)
      (compute_projected_vertices 5 5 exState 7) = 2 := by
    simp only [tri_min_x, hs5, hs4, hs7]
    norm_num [min_def]
    rfl
  have hmaxx : tri_max_x (compute_projected_vertices 5 5 exState 5)
      (compute_projected_vertices 5 5 exState 4)
      (compute_projected_vertices 5 5 exState 7) 5 = 3 := by
    have hc : (⌈(21 / 8 : ℝ)⌉ : ℤ) = 3 := by
      rw [Int.ceil_eq_iff]; norm_num
    simp only [tri_max_x, hs5, hs4, hs7]
    norm_num [max_def]
    rw [hc]
    decide
  have hminy : tri_min_y (compute_projected_vertices 5 5 exState 5)
      (compute_projected_vertices 5 5 exState 4)
      (compute_projected_vertices 5 5 exState 7) = 2 := by
    simp only [tri_min_y, hs5, hs4, hs7]
    norm_num [min_def]
    rfl
  have hmaxy : tri_max_y (compute_projected_vertices 5 5 exState 5)
      (compute_projected_vertices 5 5 exState 4)
      (compute_projected_vertices 5 5 exState 7) 5 = 3 := by
    have hc : (⌈(21 / 8 : ℝ)⌉ : ℤ) = 3 := by
      rw [Int.ceil_eq_iff]; norm_num
    simp only [tri_max_y, hs5, hs4, hs7]
    norm_num [max_def]
    rw [hc]
    decide
  rw [draw_triangle_eq_foldl_pairs, hminx, hmaxx, hminy, hmaxy]
  have hlist : (List.range' 2 (3 + 1 - 2)).flatMap
      (fun y => (List.range' 2 (3 + 1 - 2)).map (fun x => (x, y))) =
      [(2, 2), (3, 2), (2, 3), (3, 3)] := rfl
  rw [hlist]
  simp only [List.foldl_cons, List.foldl_nil]
  have hw22 : rasterize_pixel (compute_projected_vertices 5 5 exState 5)
      (compute_projected_vertices 5 5 exState 4)
      (compute_projected_vertices 5 5 exState 7) 5
      (edge_function
        (compute_projected_vertices 5 5 exState 5).screen_position
        (compute_projected_vertices 5 5 exState 4).screen_position
        (compute_projected_vertices 5 5 exState 7).screen_position)
      exState.light_position (face_colors 1) 2 2 cleared =
      { pix := write_rgba cleared.pix ((2 * 5 + 2) * 4)
          (pixel_shade (compute_projected_vertices 5 5 exState 5)
            (compute_projected_vertices 5 5 exState 4)
            (compute_projected_vertices 5 5 exState 7)
            (edge_function
              (compute_projected_vertices 5 5 exState 5).screen_position
              (compute_projected_vertices 5 5 exState 4).screen_position
              (compute_projected_vertices 5 5 exState 7).screen_position)
            exState.light_position (face_colors 1)
            (((2 : ℕ) : ℝ) + 0.5, ((2 : ℕ) : ℝ) + 0.5)),
        zbuf := fun i => if i = 2 * 5 + 2 then
          ((interpolated_z (compute_projected_vertices 5 5 exState 5)
            (compute_projected_vertices 5 5 exState 4)
            (compute_projected_vertices 5 5 exState 7)
            (edge_function
              (compute_projected_vertices 5 5 exState 5).screen_position
              (compute_projected_vertices 5 5 exState 4).screen_position
              (compute_projected_vertices 5 5 exState 7).screen_position)
            (((2 : ℕ) : ℝ) + 0.5, ((2 : ℕ) : ℝ) + 0.5) : ℝ) : WithTop ℝ)
          else cleared.zbuf i } := by
    refine rasterize_pixel_write _ _ _ 5 _ _ _ 2 2 cleared ?_ ?_ ?_
    · refine ⟨?_, ?_, ?_⟩ <;>
        norm_num [w0val, w1val, w2val, edge_function, hs5, hs4, hs7]
    · rw [harea]; norm_num
    · simp [cleared]
  rw [hw22]
  have hnin : ∀ x y : ℕ, w1val (compute_projected_vertices 5 5 exState 5)
      (compute_projected_vertices 5 5 exState 4)
      (compute_projected_vertices 5 5 exState 7)
      ((x : ℝ) + 0.5, (y : ℝ) + 0.5) < 0 →
      ∀ s, rasterize_pixel (compute_projected_vertices 5 5 exState 5)
        (compute_projected_vertices 5 5 exState 4)
        (compute_projected_vertices 5 5 exState 7) 5
        (edge_function
          (compute_projected_vertices 5 5 exState 5).screen_position
          (compute_projected_vertices 5 5 exState 4).screen_position
          (compute_projected_vertices 5 5 exState 7).screen_position)
        exState.light_position (face_colors 1) x y s = s := by
    intro x y hneg s
    refine rasterize_pixel_not_inside _ _ _ _ _ _ _ _ _ _ ?_
    rintro ⟨-, h1, -⟩
    linarith
  rw [hnin 3 2 (by norm_num [w1val, edge_function, hs5, hs7]) _,
    hnin 2 3 (by norm_num [w1val, edge_function, hs5, hs7]) _,
    hnin 3 3 (by norm_num [w1val, edge_function, hs5, hs7]) _]



set_option maxHeartbeats 1000000 in
/-- In the 5×5 scenario, the second triangle `(5,7,6)` of the `z = +1` face
changes nothing: pixel `(2,2)` is inside but fails the depth test (its
interpolated depth `1` is not below the stored `1`), and the other three
bounding-box pixels fail the inclusion test. -/
lemma ex_face1_tri2 :
    draw_triangle (compute_projected_vertices 5 5 exState 5)
      (compute_projected_vertices 5 5 exState 7)
      (compute_projected_vertices 5 5 exState 6) 5 5 exState.light_position
      (face_colors 1)
      { pix := write_rgba cleared.pix ((2 * 5 + 2) * 4)
          (pixel_shade (compute_projected_vertices 5 5 exState 5)
            (compute_projected_vertices 5 5 exState 4)
            (compute_projected_vertices 5 5 exState 7)
            (edge_function
              (compute_projected_vertices 5 5 exState 5).screen_position
              (compute_projected_vertices 5 5 exState 4).screen_position
              (compute_projected_vertices 5 5 exState 7).screen_position)
            exState.light_position (face_colors 1)
            (((2 : ℕ) : ℝ) + 0.5, ((2 : ℕ) : ℝ) + 0.5)),
        zbuf := fun i => if i = 2 * 5 + 2 then
          ((interpolated_z (compute_projected_vertices 5 5 exState 5)
            (compute_projected_vertices 5 5 exState 4)
            (compute_projected_vertices 5 5 exState 7)
            (edge_function
              (compute_projected_vertices 5 5 exState 5).screen_position
              (compute_projected_vertices 5 5 exState 4).screen_position
              (compute_projected_vertices 5 5 exState 7).screen_position)
            (((2 : ℕ) : ℝ) + 0.5, ((2 : ℕ) : ℝ) + 0.5) : ℝ) : WithTop ℝ)
          else cleared.zbuf i } =
    { pix := write_rgba cleared.pix ((2 * 5 + 2) * 4)
        (pixel_shade (compute_projected_vertices 5 5 exState 5)
          (compute_projected_vertices 5 5 exState 4)
          (compute_projected_vertices 5 5 exState 7)
          (edge_function
            (compute_projected_vertices 5 5 exState 5).screen_position
            (compute_projected_vertices 5 5 exState 4).screen_position
            (compute_projected_vertices 5 5 exState 7).screen_position)
          exState.light_position (face_colors 1)
          (((2 : ℕ) : ℝ) + 0.5, ((2 : ℕ) : ℝ) + 0.5)),
      zbuf := fun i => if i = 2 * 5 + 2 then
        ((interpolated_z (compute_projected_vertices 5 5 exState 5)
          (compute_projected_vertices 5 5 exState 4)
          (compute_projected_vertices 5 5 exState 7)
          (edge_function
            (compute_projected_vertices 5 5 exState 5).screen_position
            (compute_projected_vertices 5 5 exState 4).screen_position
            (compute_projected_vertices 5 5 exState 7).screen_position)
          (((2 : ℕ) : ℝ) + 0.5, ((2 : ℕ) : ℝ) + 0.5) : ℝ) : WithTop ℝ)
        else cleared.zbuf i } := by
  have hs5 : (compute_projected_vertices 5 5 exState 5).screen_position =
      ((2.625 : ℝ), (2.375 : ℝ)) := by
    rw [(exV_eval 5).1]; norm_num [cube_vertices]
  have hs4 : (compute_projected_vertices 5 5 exState 4).screen_position =
      ((2.375 : ℝ), (2.375 : ℝ)) := by
    rw [(exV_eval 4).1]; norm_num [cube_vertices]
  have hs7 : (compute_projected_vertices 5 5 exState 7).screen_position =
      ((2.375 : ℝ), (2.625 : ℝ)) := by
    rw [(exV_eval 7).1]; norm_num [cube_vertices]
  have hs6 : (compute_projected_vertices 5 5 exState 6).screen_position =
      ((2.625 : ℝ), (2.625 : ℝ)) := by
    rw [(exV_eval 6).1]; norm_num [cube_vertices]
  have hp5 : (compute_projected_vertices 5 5 exState 5).position 2 = 1 := by
    rw [(exV_eval 5).2]; norm_num [cube_vertices]
  have hp4 : (compute_projected_vertices 5 5 exState 4).position 2 = 1 := by
    rw [(exV_eval 4).2]; norm_num [cube_vertices]
  have hp7 : (compute_projected_vertices 5 5 exState 7).position 2 = 1 := by
    rw [(exV_eval 7).2]; norm_num [cube_vertices]
  have hp6 : (compute_projected_vertices 5 5 exState 6).position 2 = 1 := by
    rw [(exV_eval 6).2]; norm_num [cube_vertices]
  have hz1 : interpolated_z (compute_projected_vertices 5 5 exState 5)
      (compute_projected_vertices 5 5 exState 4)
      (compute_projected_vertices 5 5 exState 7)
      (edge_function
        (compute_projected_vertices 5 5 exState 5).screen_position
        (compute_projected_vertices 5 5 exState 4).screen_position
        (compute_projected_vertices 5 5 exState 7).screen_position)
      (((2 : ℕ) : ℝ) + 0.5, ((2 : ℕ) : ℝ) + 0.5) = 1 := by
    rw [interpolated_z, interp, bary0, bary1, bary2, w0val, w1val, w2val,
      hs5, hs4, hs7, hp5, hp4, hp7]
    norm_num [edge_function]
  have hz2 : interpolated_z (compute_projected_vertices 5 5 exState 5)
      (compute_projected_vertices 5 5 exState 7)
      (compute_projected_vertices 5 5 exState 6)
      (edge_function
        (compute_projected_vertices 5 5 exState 5).screen_position
        (compute_projected_vertices 5 5 exState 7).screen_position
        (compute_projected_vertices 5 5 exState 6).screen_position)
      (((2 : ℕ) : ℝ) + 0.5, ((2 : ℕ) : ℝ) + 0.5) = 1 := by
    rw [interpolated_z, interp, bary0, bary1, bary2, w0val, w1val, w2val,
      hs5, hs7, hs6, hp5, hp7, hp6]
    norm_num [edge_function]
  have hminx : tri_min_x (compute_projected_vertices 5 5 exState 5)
      (compute_projected_vertices 5 5 exState 7)
      (compute_projected_vertices 5 5 exState 6) = 2 := by
    simp only [tri_min_x, hs5, hs7, hs6]
    norm_num [min_def]
    rfl
  have hmaxx : tri_max_x (compute_projected_vertices 5 5 exState 5)
      (compute_projected_vertices 5 5 exState 7)
      (compute_projected_vertices 5 5 exState 6) 5 = 3 := by
    have hc : (⌈(21 / 8 : ℝ)⌉ : ℤ) = 3 := by
      rw [Int.ceil_eq_iff]; norm_num
    simp only [tri_max_x, hs5, hs7, hs6]
    norm_num [max_def]
    rw [hc]
    decide
  have hminy : tri_min_y (compute_projected_vertices 5 5 exState 5)
      (compute_projected_vertices 5 5 exState 7)
      (compute_projected_vertices 5 5 exState 6) = 2 := by
    simp only [tri_min_y, hs5, hs7, hs6]
    norm_num [min_def]
    rfl
  have hmaxy : tri_max_y (compute_projected_vertices 5 5 exState 5)
      (compute_projected_vertices 5 5 exState 7)
      (compute_projected_vertices 5 5 exState 6) 5 = 3 := by
    have hc : (⌈(21 / 8 : ℝ)⌉ : ℤ) = 3 := by
      rw [Int.ceil_eq_iff]; norm_num
    simp only [tri_max_y, hs5, hs7, hs6]
    norm_num [max_def]
    rw [hc]
    decide
  rw [draw_triangle_eq_foldl_pairs, hminx, hmaxx, hminy, hmaxy]
  have hlist : (List.range' 2 (3 + 1 - 2)).flatMap
      (fun y => (List.range' 2 (3 + 1 - 2)).map (fun x => (x, y))) =
      [(2, 2), (3, 2), (2, 3), (3, 3)] := rfl
  rw [hlist]
  simp only [List.foldl_cons, List.foldl_nil]
  have hskip22 : ∀ s : Buffers, s.zbuf (2 * 5 + 2) =
      ((1 : ℝ) : WithTop ℝ) →
      rasterize_pixel (compute_projected_vertices 5 5 exState 5)
        (compute_projected_vertices 5 5 exState 7)
        (compute_projected_vertices 5 5 exState 6) 5
        (edge_function
          (compute_projected_vertices 5 5 exState 5).screen_position
          (compute_projected_vertices 5 5 exState 7).screen_position
          (compute_projected_vertices 5 5 exState 6).screen_position)
        exState.light_position (face_colors 1) 2 2 s = s := by
    intro s hsz
    refine rasterize_pixel_skip _ _ _ _ _ _ _ _ _ _ ?_ ?_
    · rw [hs5, hs7, hs6]
      norm_num [edge_function]
    · rw [hz2, hsz]
      simp
  have hnin0 : ∀ x y : ℕ, w0val (compute_projected_vertices 5 5 exState 5)
      (compute_projected_vertices 5 5 exState 7)
      (compute_projected_vertices 5 5 exState 6)
      ((x : ℝ) + 0.5, (y : ℝ) + 0.5) < 0 →
      ∀ s, rasterize_pixel (compute_projected_vertices 5 5 exState 5)
        (compute_projected_vertices 5 5 exState 7)
        (compute_projected_vertices 5 5 exState 6) 5
        (edge_function
          (compute_projected_vertices 5 5 exState 5).screen_position
          (compute_projected_vertices 5 5 exState 7).screen_position
          (compute_projected_vertices 5 5 exState 6).screen_position)
        exState.light_position (face_colors 1) x y s = s := by
    intro x y hneg s
    refine rasterize_pixel_not_inside _ _ _ _ _ _ _ _ _ _ ?_
    rintro ⟨h0, -, -⟩
    linarith
  have hnin1 : ∀ x y : ℕ, w1val (compute_projected_vertices 5 5 exState 5)
      (compute_projected_vertices 5 5 exState 7)
      (compute_projected_vertices 5 5 exState 6)
      ((x : ℝ) + 0.5, (y : ℝ) + 0.5) < 0 →
      ∀ s, rasterize_pixel (compute_projected_vertices 5 5 exState 5)
        (compute_projected_vertices 5 5 exState 7)
        (compute_projected_vertices 5 5 exState 6) 5
        (edge_function
          (compute_projected_vertices 5 5 exState 5).screen_position
          (compute_projected_vertices 5 5 exState 7).screen_position
          (compute_projected_vertices 5 5 exState 6).screen_position)
        exState.light_position (face_colors 1) x y s = s := by
    intro x y hneg s
    refine rasterize_pixel_not_inside _ _ _ _ _ _ _ _ _ _ ?_
    rintro ⟨-, h1, -⟩
    linarith
  rw [hskip22 _ (by dsimp only; rw [if_pos rfl, hz1])]
  rw [hnin1 3 2 (by norm_num [w1val, edge_function, hs5, hs6]) _,
    hnin0 2 3 (by norm_num [w0val, edge_function, hs7, hs6]) _,
    hnin0 3 3 (by norm_num [w0val, edge_function, hs7, hs6]) _]



set_option maxHeartbeats 2000000 in
/-- **C8 counterexample** For a 5×5 viewport the render path performs no
minimum-size check and does not leave the buffer blank: in the concrete
scenario (no rotation, zoom `1/10`, filled mode) the rendered `z = +1` face
writes pixel `(2,2)`, whose alpha byte 51 ends up `255`, while an untouched
buffer holds `0` there.  No "too small to render" signal exists on this
path — `paint_buffers` rasterizes unconditionally. -/
theorem viewport_minimum_counterexample :
    (paint_buffers 5 5 exState).pix 51 = 255 ∧ cleared.pix 51 = 0 := by
  have hs0 : (compute_projected_vertices 5 5 exState 0).screen_position =
      ((2.375 : ℝ), (2.375 : ℝ)) := by
    rw [(exV_eval 0).1]; norm_num [cube_vertices]
  have hs1 : (compute_projected_vertices 5 5 exState 1).screen_position =
      ((2.625 : ℝ), (2.375 : ℝ)) := by
    rw [(exV_eval 1).1]; norm_num [cube_vertices]
  have hs2 : (compute_projected_vertices 5 5 exState 2).screen_position =
      ((2.625 : ℝ), (2.625 : ℝ)) := by
    rw [(exV_eval 2).1]; norm_num [cube_vertices]
  have hs3 : (compute_projected_vertices 5 5 exState 3).screen_position =
      ((2.375 : ℝ), (2.625 : ℝ)) := by
    rw [(exV_eval 3).1]; norm_num [cube_vertices]
  have hs4 : (compute_projected_vertices 5 5 exState 4).screen_position =
      ((2.375 : ℝ), (2.375 : ℝ)) := by
    rw [(exV_eval 4).1]; norm_num [cube_vertices]
  have hs5 : (compute_projected_vertices 5 5 exState 5).screen_position =
      ((2.625 : ℝ), (2.375 : ℝ)) := by
    rw [(exV_eval 5).1]; norm_num [cube_vertices]
  have hs6 : (compute_projected_vertices 5 5 exState 6).screen_position =
      ((2.625 : ℝ), (2.625 : ℝ)) := by
    rw [(exV_eval 6).1]; norm_num [cube_vertices]
  have hs7 : (compute_projected_vertices 5 5 exState 7).screen_position =
      ((2.375 : ℝ), (2.625 : ℝ)) := by
    rw [(exV_eval 7).1]; norm_num [cube_vertices]
  have hf0a : ∀ s, draw_triangle (compute_projected_vertices 5 5 exState 0)
      (compute_projected_vertices 5 5 exState 1)
      (compute_projected_vertices 5 5 exState 2) 5 5 exState.light_position
      (face_colors 0) s = s := fun s =>
    draw_triangle_eq_of_neg_area _ _ _ _ _ _ _ s
      (by rw [hs0, hs1, hs2]; norm_num [edge_function])
  have hf0b : ∀ s, draw_triangle (compute_projected_vertices 5 5 exState 0)
      (compute_projected_vertices 5 5 exState 2)
      (compute_projected_vertices 5 5 exState 3) 5 5 exState.light_position
      (face_colors 0) s = s := fun s =>
    draw_triangle_eq_of_neg_area _ _ _ _ _ _ _ s
      (by rw [hs0, hs2, hs3]; norm_num [edge_function])
  have hf2a : ∀ s, draw_triangle (compute_projected_vertices 5 5 exState 4)
      (compute_projected_vertices 5 5 exState 0)
      (compute_projected_vertices 5 5 exState 3) 5 5 exState.light_position
      (face_colors 2) s = s := fun s =>
    draw_triangle_eq_of_zero_area _ _ _ _ _ _ _ s
      (by rw [hs4, hs0, hs3]; norm_num [edge_function])
  have hf2b : ∀ s, draw_triangle (compute_projected_vertices 5 5 exState 4)
      (compute_projected_vertices 5 5 exState 3)
      (compute_projected_vertices 5 5 exState 7) 5 5 exState.light_position
      (face_colors 2) s = s := fun s =>
    draw_triangle_eq_of_zero_area _ _ _ _ _ _ _ s
      (by rw [hs4, hs3, hs7]; norm_num [edge_function])
  have hf3a : ∀ s, draw_triangle (compute_projected_vertices 5 5 exState 1)
      (compute_projected_vertices 5 5 exState 5)
      (compute_projected_vertices 5 5 exState 6) 5 5 exState.light_position
      (face_colors 3) s = s := fun s =>
    draw_triangle_eq_of_zero_area _ _ _ _ _ _ _ s
      (by rw [hs1, hs5, hs6]; norm_num [edge_function])
  have hf3b : ∀ s, draw_triangle (compute_projected_vertices 5 5 exState 1)
      (compute_projected_vertices 5 5 exState 6)
      (compute_projected_vertices 5 5 exState 2) 5 5 exState.light_position
      (face_colors 3) s = s := fun s =>
    draw_triangle_eq_of_zero_area _ _ _ _ _ _ _ s
      (by rw [hs1, hs6, hs2]; norm_num [edge_function])
  have hf4a : ∀ s, draw_triangle (compute_projected_vertices 5 5 exState 4)
      (compute_projected_vertices 5 5 exState 5)
      (compute_projected_vertices 5 5 exState 1) 5 5 exState.light_position
      (face_colors 4) s = s := fun s =>
    draw_triangle_eq_of_zero_area _ _ _ _ _ _ _ s
      (by rw [hs4, hs5, hs1]; norm_num [edge_function])
  have hf4b : ∀ s, draw_triangle (compute_projected_vertices 5 5 exState 4)
      (compute_projected_vertices 5 5 exState 1)
      (compute_projected_vertices 5 5 exState 0) 5 5 exState.light_position
      (face_colors 4) s = s := fun s =>
    draw_triangle_eq_of_zero_area _ _ _ _ _ _ _ s
      (by rw [hs4, hs1, hs0]; norm_num [edge_function])
  have hf5a : ∀ s, draw_triangle (compute_projected_vertices 5 5 exState 3)
      (compute_projected_vertices 5 5 exState 2)
      (compute_projected_vertices 5 5 exState 6) 5 5 exState.light_position
      (face_colors 5) s = s := fun s =>
    draw_triangle_eq_of_zero_area _ _ _ _ _ _ _ s
      (by rw [hs3, hs2, hs6]; norm_num [edge_function])
  have hf5b : ∀ s, draw_triangle (compute_projected_vertices 5 5 exState 3)
      (compute_projected_vertices 5 5 exState 6)
      (compute_projected_vertices 5 5 exState 7) 5 5 exState.light_position
      (face_colors 5) s = s := fun s =>
    draw_triangle_eq_of_zero_area _ _ _ _ _ _ _ s
      (by rw [hs3, hs6, hs7]; norm_num [edge_function])
  constructor
  · have hfaces : cube_faces.enum = [(0, 0, 1, 2, 3), (1, 5, 4, 7, 6),
        (2, 4, 0, 3, 7), (3, 1, 5, 6, 2), (4, 4, 5, 1, 0),
        (5, 3, 2, 6, 7)] := rfl
    simp only [paint_buffers]
    rw [if_neg (by simp [exState])]
    rw [hfaces]
    simp only [List.foldl_cons, List.foldl_nil]
    rw [hf0a, hf0b, ex_face1_tri1, ex_face1_tri2, hf2a, hf2b, hf3a, hf3b,
      hf4a, hf4b, hf5a, hf5b]
    dsimp only
    rw [show (51 : ℕ) = (2 * 5 + 2) * 4 + 3 by norm_num]
    rw [write_rgba]
    norm_num [pixel_shade, apply_lighting, Color.rgb8]
  · rfl

/-- **C8 (amended)** The render path has no minimum-viewport check and never
signals "too small": for any viewport with `width, height ≥ 1` (including
5×5) it simply rasterizes.  It neither panics nor writes out of bounds: the
clamped bounding boxes and the line rasterizer's bounds guard keep every
pixel-byte write below `width*height*4` and every depth write below
`width*height`, so all bytes beyond the buffers keep their cleared values. -/
theorem viewport_no_minimum_no_oob (w h : ℕ) (data : AppState)
    (hw : 1 ≤ w) (hh : 1 ≤ h) :
    (∀ i, w * h * 4 ≤ i → (paint_buffers w h data).pix i = 0) ∧
    (∀ i, w * h ≤ i → (paint_buffers w h data).zbuf i = ⊤) := by
  simp only [paint_buffers]
  split_ifs with hwf
  · constructor
    · intro i hi
      dsimp only
      rw [foldl_fun_eq_of_mem _ i _ (fun p e he =>
        draw_line_pix_high _ _ _ _ p w h colorWhite i hi) cleared.pix]
      rfl
    · intro i hi
      rfl
  · constructor
    · intro i hi
      rw [foldl_pix_eq_of_mem _ i _ (fun s fi hf => ?_) cleared]
      · rfl
      · rw [draw_triangle_pix_high _ _ _ w h _ _ _ i hw hh hi,
          draw_triangle_pix_high _ _ _ w h _ _ _ i hw hh hi]
    · intro i hi
      rw [foldl_zbuf_eq_of_mem _ i _ (fun s fi hf => ?_) cleared]
      · rfl
      · rw [draw_triangle_zbuf_high _ _ _ w h _ _ _ i hw hh hi,
          draw_triangle_zbuf_high _ _ _ w h _ _ _ i hw hh hi]

/-- Witness for the amended C8: at the 5×5 viewport, byte 100 (the first
byte past the 100-byte pixel buffer) and depth entry 25 (the first past the
25-entry depth buffer) keep their cleared values `0` and `+∞`. -/
theorem viewport_no_minimum_no_oob_witness :
    (paint_buffers 5 5 exState).pix 100 = 0 ∧
    (paint_buffers 5 5 exState).zbuf 25 = ⊤ :=
  ⟨(viewport_no_minimum_no_oob 5 5 exState (by norm_num) (by norm_num)).1 100
      (by norm_num),
    (viewport_no_minimum_no_oob 5 5 exState (by norm_num) (by norm_num)).2 25
      (by norm_num)⟩

end Cube3d
